import Mathlib

/-!
Shallow embedding of the `oas-codegen-parser` core (`typegen.ts`, `lib.ts`,
`types.ts`): the reference registry, the recursive schema resolver, the
parameter/response/request-body parsers, the path-and-method walker and the
event emitter, together with theorems settling the frozen claims about them.

Raw OpenAPI document nodes are modelled as `Json` values; JavaScript
behaviours that the source relies on (property access on `undefined`
throwing `TypeError`, `undefined` coerced to the string "undefined" when
used as an object key or interpolated, `||` falsiness of the empty string,
insertion-ordered objects with overwrite-in-place assignment) are modelled
explicitly by the helpers below.
-/

namespace OasCodegen

/-- Raw JSON values: the shape of the OpenAPI document handed to the parser.
Objects keep insertion order, as JavaScript objects do. Numbers are modelled
as integers (the embedded claims never touch fractional literals). -/
inductive Json where
  | null
  | bool (b : Bool)
  | num (n : Int)
  | str (s : String)
  | arr (elems : List Json)
  | obj (fields : List (String × Json))

namespace Json

mutual

/-- Structural equality test on JSON values. -/
def beq : Json → Json → Bool
  | .bool a, .bool b => a == b
  | .num a, .num b => a == b
  | .str a, .str b => a == b
  | .null, .null => true
  | .arr a, .arr b => eqArr a b
  | .obj a, .obj b => eqObj a b
  | _, _ => false

/-- Elementwise equality of JSON arrays. -/
def eqArr : List Json → List Json → Bool
  | [], [] => true
  | a :: at1, b :: bt => beq a b && eqArr at1 bt
  | _, _ => false

/-- Fieldwise equality of JSON object entry lists. -/
def eqObj : List (String × Json) → List (String × Json) → Bool
  | [], [] => true
  | (ka, va) :: ps, (kb, vb) :: qs => ka == kb && beq va vb && eqObj ps qs
  | _, _ => false

end

instance : BEq Json := ⟨beq⟩

mutual

/-- Structural size, the termination measure for the recursive resolver. -/
def size : Json → Nat
  | .null | .bool _ | .num _ | .str _ => 1
  | .arr xs => 1 + sizeList xs
  | .obj fs => 1 + sizeFields fs

def sizeList : List Json → Nat
  | [] => 0
  | j :: t => size j + sizeList t + 1

def sizeFields : List (String × Json) → Nat
  | [] => 0
  | (_, j) :: t => size j + sizeFields t + 1

end

theorem size_pos (j : Json) : 0 < j.size := by
  cases j <;> simp [size]

mutual

theorem beq_iff : ∀ a b : Json, beq a b = true ↔ a = b
  | .null, b => by cases b <;> simp [beq]
  | .bool x, b => by cases b <;> simp [beq]
  | .num x, b => by cases b <;> simp [beq]
  | .str x, b => by cases b <;> simp [beq]
  | .arr xs, b => by
    cases b <;> simp [beq]
    exact eqArr_iff xs _
  | .obj fs, b => by
    cases b <;> simp [beq]
    exact eqObj_iff fs _

theorem eqArr_iff : ∀ a b : List Json, eqArr a b = true ↔ a = b
  | [], [] => by simp [eqArr]
  | [], _ :: _ => by simp [eqArr]
  | _ :: _, [] => by simp [eqArr]
  | x :: xs, y :: ys => by
    simp [eqArr, beq_iff x y, eqArr_iff xs ys]

theorem eqObj_iff : ∀ a b : List (String × Json), eqObj a b = true ↔ a = b
  | [], [] => by simp [eqObj]
  | [], _ :: _ => by simp [eqObj]
  | _ :: _, [] => by simp [eqObj]
  | (ka, va) :: ps, (kb, vb) :: qs => by
    simp only [eqObj, List.cons.injEq, Prod.mk.injEq, Bool.and_eq_true, beq_iff va vb,
      eqObj_iff ps qs, beq_iff_eq]

end

instance : DecidableEq Json := fun a b => decidable_of_iff _ (Json.beq_iff a b)

end Json

/-- First-match lookup in an insertion-ordered association list
(JavaScript object property read; `aset` below keeps keys unique). -/
def alookup {κ α : Type} [DecidableEq κ] (k : κ) : List (κ × α) → Option α
  | [] => none
  | (k', v) :: t => if k' = k then some v else alookup k t

/-- JavaScript object property write: overwrite in place when the key
exists (keeping its position), append otherwise. -/
def aset {κ α : Type} [DecidableEq κ] (k : κ) (v : α) : List (κ × α) → List (κ × α)
  | [] => [(k, v)]
  | (k', v') :: t => if k' = k then (k, v) :: t else (k', v') :: aset k v t

theorem alookup_aset_self {κ α : Type} [DecidableEq κ] (k : κ) (v : α) :
    (l : List (κ × α)) → alookup k (aset k v l) = some v
  | [] => by simp [aset, alookup]
  | (k', v') :: t => by
    by_cases h : k' = k
    · simp [aset, h, alookup]
    · simp [aset, h, alookup, alookup_aset_self k v t]

theorem alookup_aset_ne {κ α : Type} [DecidableEq κ] {k k' : κ} (h : k' ≠ k) (v : α) :
    (l : List (κ × α)) → alookup k (aset k' v l) = alookup k l
  | [] => by simp [aset, alookup, h]
  | (k'', v'') :: t => by
    by_cases h2 : k'' = k'
    · subst h2
      simp [aset, alookup, h]
    · simp only [aset, if_neg h2, alookup]
      by_cases h3 : k'' = k
      · simp [h3]
      · simp [h3, alookup_aset_ne h v t]

/-- The thrown values of the embedding: `TypeError` crashes,
`throw new Error(msg)` and `throw 'msg'` string literals. -/
inductive JsErr where
  | typeError (msg : String)
  | errorObj (msg : String)
  | strLit (msg : String)
deriving DecidableEq, Repr

namespace Js

/-- JavaScript string coercion of `undefined` at property-key and
template-interpolation sites. -/
def jstr : Option String → String
  | some s => s
  | none => "undefined"

/-- JavaScript `a || b` on possibly-undefined strings: the empty string is
falsy, so it falls through to the right operand. -/
def orS : Option String → Option String → Option String
  | some s, b => if s = "" then b else some s
  | none, b => b

/-- JavaScript truthiness of a JSON value. -/
def truthy : Json → Bool
  | .null => false
  | .bool b => b
  | .num n => n != 0
  | .str s => s != ""
  | .arr _ => true
  | .obj _ => true

/-- Truthiness of a possibly-undefined value (`undefined` is falsy). -/
def truthyO : Option Json → Bool
  | none => false
  | some j => truthy j

mutual

/-- JavaScript string coercion of a JSON value (`String(v)` / template
interpolation): `null ↦ "null"`, arrays join their elements with commas
(with `null` elements printing empty), plain objects print as
"[object Object]". -/
def toStr : Json → String
  | .null => "null"
  | .bool b => if b then "true" else "false"
  | .num n => toString n
  | .str s => s
  | .arr xs => toStrList xs
  | .obj _ => "[object Object]"

def toStrList : List Json → String
  | [] => ""
  | [.null] => ""
  | [j] => toStr j
  | .null :: t => "," ++ toStrList t
  | j :: t => toStr j ++ "," ++ toStrList t

end

/-- Interpolation of a possibly-undefined JSON value. -/
def toStrO : Option Json → String
  | none => "undefined"
  | some j => toStr j

/-- Property read with optional chaining (`o?.k`): `undefined`/`null`
short-circuit, primitives have none of the keys the parser reads, objects
look the key up. Never throws. -/
def getOpt : Option Json → String → Option Json
  | none, _ => none
  | some (.obj fs), k => alookup k fs
  | some _, _ => none

/-- Plain property read `o.k`: throws `TypeError` on `undefined` and
`null`, yields `undefined` on other primitives. -/
def getProp : Option Json → String → Except JsErr (Option Json)
  | none, k => .error (.typeError ("cannot read '" ++ k ++ "' of undefined"))
  | some .null, k => .error (.typeError ("cannot read '" ++ k ++ "' of null"))
  | some (.obj fs), k => .ok (alookup k fs)
  | some _, _ => .ok none

/-- JavaScript `'k' in o`: throws `TypeError` unless `o` is an object (or
array; the keys the parser tests are never array indices or `length`). -/
def hasKey : Option Json → String → Except JsErr Bool
  | none, _ => .error (.typeError "cannot use in operator on undefined")
  | some .null, _ => .error (.typeError "cannot use in operator on null")
  | some (.obj fs), k => .ok (alookup k fs).isSome
  | some (.arr _), _ => .ok false
  | some _, _ => .error (.typeError "cannot use in operator on a primitive")

/-- `parseInt(s, 10)`: optional leading whitespace and sign, then leading
decimal digits; `none` models `NaN`. -/
def parseIntJs (s : String) : Option Int :=
  let cs := s.toList.dropWhile (fun c => c = ' ' || c = '\t' || c = '\n' || c = '\r')
  let (neg, cs) :=
    match cs with
    | '-' :: t => (true, t)
    | '+' :: t => (false, t)
    | _ => (false, cs)
  let digits := cs.takeWhile Char.isDigit
  if digits.isEmpty then none
  else
    let n : Nat := digits.foldl (fun acc c => acc * 10 + (c.toNat - 48)) 0
    some (if neg then -(n : Int) else (n : Int))

end Js

/-- Minimal JSON string escaping (quotes and backslashes; the documents in
scope contain no control characters). -/
def escape (s : String) : String :=
  String.mk (s.toList.foldr
    (fun c acc =>
      if c = '"' then '\\' :: '"' :: acc
      else if c = '\\' then '\\' :: '\\' :: acc
      else c :: acc) [])

mutual

/-- `JSON.stringify` of a raw node: the content-hash key of the registry's
structural-deduplication strategy. -/
def stringify : Json → String
  | .null => "null"
  | .bool b => if b then "true" else "false"
  | .num n => toString n
  | .str s => "\"" ++ escape s ++ "\""
  | .arr xs => "[" ++ stringifyList xs ++ "]"
  | .obj fs => "\x7b" ++ stringifyFields fs ++ "\x7d"

def stringifyList : List Json → String
  | [] => ""
  | [j] => stringify j
  | j :: t => stringify j ++ "," ++ stringifyList t

def stringifyFields : List (String × Json) → String
  | [] => ""
  | [(k, v)] => "\"" ++ escape k ++ "\":" ++ stringify v
  | (k, v) :: t => "\"" ++ escape k ++ "\":" ++ stringify v ++ "," ++ stringifyFields t

end

/-! ### String helpers from `lib.ts` -/

def isWordChar (c : Char) : Bool := c.isAlpha || c.isDigit || c = '_'

def isSepChar (c : Char) : Bool :=
  c = ' ' || c = '\t' || c = '\n' || c = '\r' || c = '-' || c = '_'

/-- The global scan of `camelCase`'s replace: a separator followed by a
word character collapses to the uppercased word character. -/
def camelScan : List Char → List Char
  | [] => []
  | [c] => [c]
  | c :: w :: rest' =>
    if isSepChar c && isWordChar w then w.toUpper :: camelScan rest'
    else c :: camelScan (w :: rest')

/-- `camelCase` from `lib.ts`: prepends a space when `firstCapital`, then
lowercases a leading capital and uppercases every word character that
follows a space/dash/underscore separator. -/
def camelCase (str : String) (firstCapital : Bool) : String :=
  let s := if firstCapital then " " ++ str else str
  match s.toList with
  | [] => ""
  | c :: rest =>
    if c.isUpper then String.mk (c.toLower :: camelScan rest)
    else String.mk (camelScan (c :: rest))

/-- `upper` from `lib.ts` (`name[0].toUpperCase() + name.slice(1)`); its
callers only pass the non-empty security-scheme type names. -/
def upperFirst (s : String) : String :=
  match s.toList with
  | [] => ""
  | c :: t => String.mk (c.toUpper :: t)

/-- `name.charAt(0).toUpperCase() + name.slice(1)` (empty-safe). -/
def capFirst (s : String) : String :=
  match s.toList with
  | [] => ""
  | c :: t => String.mk (c.toUpper :: t)

def isAlnum (c : Char) : Bool := c.isAlpha || c.isDigit

mutual

/-- The content-type sanitizer inside `getResponseName`: each maximal run
of non-alphanumerics, optionally followed by one lowercase letter, becomes
that letter uppercased (or a space when no letter follows). -/
def sanitizeCT : List Char → List Char
  | [] => []
  | c :: rest =>
    if isAlnum c then c :: sanitizeCT rest
    else sanitizeRun rest
termination_by l => (l.length, 0)

/-- Consumes the rest of a maximal non-alphanumeric run, then the optional
trailing lowercase letter. -/
def sanitizeRun : List Char → List Char
  | [] => [' ']
  | d :: rest =>
    if !isAlnum d then sanitizeRun rest
    else if d.isLower then d.toUpper :: sanitizeCT rest
    else ' ' :: sanitizeCT (d :: rest)
termination_by l => (l.length, 1)

end

/-- `[...new Set(xs).values()]`: order-preserving de-duplication. -/
def dedupFirst (l : List String) : List String :=
  l.foldl (fun acc x => if acc.contains x then acc else acc ++ [x]) []

/-- `str.split('/')` on the character list (JavaScript split semantics:
an empty string yields one empty segment). -/
def splitSlash : List Char → List (List Char)
  | [] => [[]]
  | c :: t =>
    let r := splitSlash t
    if c = '/' then [] :: r
    else
      match r with
      | h :: t' => (c :: h) :: t'
      | [] => [[c]]

def isJsSpace (c : Char) : Bool :=
  c = ' ' || c = '\t' || c = '\n' || c = '\r'

/-- `String.prototype.trim`. -/
def jsTrim (s : String) : String :=
  String.mk (((s.toList.dropWhile isJsSpace).reverse.dropWhile isJsSpace).reverse)

/-- `String.prototype.startsWith`. -/
def jsStartsWith (s pre : String) : Bool :=
  pre.toList.isPrefixOf s.toList

/-- `String.prototype.toUpperCase` (ASCII, as the section names are). -/
def jsToUpper (s : String) : String :=
  String.mk (s.toList.map Char.toUpper)

/-! ### Constant tables from `lib.ts` -/

/-- Keys of the `validators` object: the validation-keyword allow-list. -/
def validators : List String :=
  ["multipleOf", "maximum", "exclusiveMaximum", "minimum", "exclusiveMinimum",
   "maxLength", "minLength", "pattern", "maxItems", "minItems", "uniqueItems",
   "maxContains", "minContains", "maxProperties", "minProperties", "required",
   "dependentRequired", "nullable"]

/-- Keys of the `omitFromExtras` object: structural keywords never copied
into the extras bag. -/
def omitFromExtras : List String :=
  ["type", "format", "schema", "items", "$ref", "properties", "default",
   "enum", "description", "additionalProperties", "allOf", "anyOf", "oneOf"]

/-- Keys of the `primitives` object. -/
def primitives : List String := ["integer", "number", "string", "boolean", "null"]

/-- Keys of the `methods` object, in their declared order: the fixed HTTP
verb priority the walker iterates. -/
def methodsList : List String :=
  ["get", "put", "post", "delete", "options", "head", "patch", "trace"]

/-- Keys accepted by `isSecuritySchemeObject`. -/
def securityTypes : List String := ["http", "apiKey", "oauth2", "openIdConnect"]

/-- `schemaTypeHints` from `lib.ts`. -/
def schemaTypeHints : String → Option String
  | "schemas" => some "SchemaObject"
  | "responses" => some "ResponseObject"
  | "parameters" => some "ParameterObject"
  | "examples" => some "ExampleObject"
  | "requestBodies" => some "RequestBodyObject"
  | "headers" => some "HeaderObject"
  | "securitySchemes" => some "SecuritySchemeObject"
  | "links" => some "LinkObject"
  | "callbacks" => some "CallbackObject"
  | _ => none

/- The `TypeGenTypes` tag strings. -/
namespace TT

abbrev ref := "REF"
abbrev path := "PATH"
abbrev methodT := "METHOD"
abbrev schemaT := "SCHEMA"
abbrev model := "MODEL"
abbrev parameter := "PARAMETER"
abbrev queryParameter := "QUERY_PARAMETER"
abbrev headersParameter := "HEADER_PARAMETER"
abbrev pathParameter := "PATH_PARAMETER"
abbrev securityScheme := "SECURITY_SCHEME"
abbrev response := "RESPONSE"
abbrev requestBody := "REQUEST_BODY"
abbrev primitive := "PRIMITIVE"
abbrev remoteRef := "REMOTE_REF"
abbrev methodParam := "METHOD_PARAM"

end TT

/-- `TypeGenTypes[in + "Parameter"]` with the `?? parameter` fallback.
Note the asymmetry the source inherits from its key names: `in: "header"`
looks up the missing key `headerParameter` and falls back to the generic
tag, while the synthesized `in: "headers"` nodes hit `headersParameter`. -/
def parameterTType (inVal : String) : String :=
  if inVal = "query" then TT.queryParameter
  else if inVal = "headers" then TT.headersParameter
  else if inVal = "path" then TT.pathParameter
  else TT.parameter

/-! ### Parsed-entity types from `types.ts` -/

/-- `TypeGenRef`: a lightweight handle resolved through the registry. -/
structure TypeGenRef where
  name : String
  tType : String
deriving DecidableEq, Repr

/-- A value stored in a model's `extras` bag: a raw JSON value, a
reference, or the synthesized `headers` name→ref map of a response. -/
inductive TGExtra where
  | json (j : Json)
  | refv (r : TypeGenRef)
  | headersM (hs : List (String × Option TypeGenRef))

/-- `TypeGenTypeField`: a named member of an object-shaped model. `type`
and `subtype` hold raw JSON values (the source copies them unchecked) or
reference-name strings. -/
structure TGField where
  name : String
  tType : String
  type : Option Json
  subtype : Option Json
  validations : List (String × Json)
  extras : List (String × TGExtra)
  description : Option Json
  enumv : Option Json
  array : Bool
  defaultV : Option Json

/-- `TypeGenModel`, parametrized by the dependency-entry type so the
model/reference union below can tie the knot. `Option` fields model
JavaScript properties that may be absent (`dependencies` in particular is
deleted on nested models); `array := false` models an absent flag. -/
structure ModelF (δ : Type) where
  name : Option String
  tType : String
  schema : Json
  location : Option String
  type : Option String
  enumv : Option Json
  description : Option Json
  validations : List (String × Json)
  extras : List (String × TGExtra)
  dependencies : Option (List δ)
  fields : List TGField
  array : Bool
  allOf : Option (List δ)
  anyOf : Option (List δ)
  oneOf : Option (List δ)

/-- A resolved value: a `TypeGenModel` or a `TypeGenRef`. -/
inductive TGVal where
  | refv (r : TypeGenRef)
  | model (m : ModelF TGVal)

namespace TGVal

/-- `v.name` (on refs a string, on models possibly undefined). -/
def nameO : TGVal → Option String
  | .refv r => some r.name
  | .model m => m.name

/-- `v.tType`. -/
def tTypeOf : TGVal → String
  | .refv r => r.tType
  | .model m => m.tType

/-- `v.type` (refs have none). -/
def typeO : TGVal → Option String
  | .refv _ => none
  | .model m => m.type

/-- `isTypegenRef`: the `tType` is `REF` or `REMOTE_REF`. -/
def isTypegenRef (v : TGVal) : Bool :=
  v.tTypeOf = TT.ref || v.tTypeOf = TT.remoteRef

end TGVal

/-- `v.dependencies` deleted (`delete items.dependencies`); a no-op on
references, which never carry the property. -/
def TGVal.deleteDeps : TGVal → TGVal
  | .model m => .model { m with dependencies := none }
  | v => v

/-- A combinator branch after `mapSubschema`: `model.dependencies = []`
when the property exists. -/
def TGVal.clearDeps : TGVal → TGVal
  | .model m =>
    if m.dependencies.isSome then .model { m with dependencies := some [] } else .model m
  | v => v

/-- `TypeGenResponse`. `status := none` models `NaN` (a response key that
`parseInt` rejects, such as `default`). -/
structure TGResponse where
  name : String
  status : Option Int
  tType : String
  type : Option String
  payload : Option TypeGenRef
  headers : List (String × Option TypeGenRef)
  description : Option Json
  contentType : Option String
  array : Bool

/-- `TypeGenBody`. -/
structure TGBody where
  name : String
  tType : String
  payload : TypeGenRef
  type : String
  description : Option Json
  contentType : String

/-- The heap of shared mutable arrays inside `parseMethodObject`: the
spread `{...opItem}` snapshot copies array references, so pushes through
either alias stay visible through both. Arrays are identified by ids. -/
structure MHeap where
  refArrs : List (Nat × List (Option TypeGenRef))
  respArrs : List (Nat × List TGResponse)
  bodyArrs : List (Nat × List TGBody)
  next : Nat

def MHeap.empty : MHeap := { refArrs := [], respArrs := [], bodyArrs := [], next := 0 }

/-- Registry and schema-resolution state of a `TypeGen` instance (the
fields that `assertRef` and the resolvers touch; the emitter state is kept
separate because no resolver reads or writes it). `hasher := true` models
the declared-name hasher that `collectDefinitions` installs; `false` the
default content hasher. -/
structure Reg where
  schemaRefMap : List (String × TypeGenRef)
  refContentMap : List (String × ModelF TGVal)
  hasher : Bool
  heap : MHeap

def Reg.init : Reg :=
  { schemaRefMap := [], refContentMap := [], hasher := false, heap := MHeap.empty }

/-! ### Registry operations -/

/-- `resolveSchemaType`: `null` when the name is unknown; in the second
branch (content known, ref-map miss) the returned `ref` is `undefined`. -/
def resolveSchemaType (reg : Reg) (type : String) :
    Option (Option TypeGenRef × Option (ModelF TGVal)) :=
  match alookup type reg.schemaRefMap with
  | some r => some (some r, alookup r.name reg.refContentMap)
  | none =>
    match alookup type reg.refContentMap with
    | some m => some (none, some m)
    | none => none

/-- `getModelHash`: `JSON.stringify(schema)` under the default strategy
(`JSON.stringify(undefined)` is `undefined`, modelled as `none`), or
`name || parsed?.name` under the hasher `collectDefinitions` installs. -/
def getModelHash (reg : Reg) (schema : Option Json) (parsed : Option TGVal)
    (name : Option String) : Option String :=
  if reg.hasher then Js.orS name (parsed.bind TGVal.nameO)
  else schema.map stringify

/-- `getRefFromSchema` (an undefined hash reads the key "undefined"). -/
def getRefFromSchema (reg : Reg) (schema : Option Json) : Option TypeGenRef :=
  alookup (Js.jstr (getModelHash reg schema none none)) reg.schemaRefMap

/-- `deduplicateSchema`: a content-key hit that also resolves yields the
existing `{ref, model}`; everything else falls through as `undefined`. -/
def deduplicateSchema (reg : Reg) (schema : Option Json) :
    Option (Option TypeGenRef × Option (ModelF TGVal)) :=
  match getRefFromSchema reg schema with
  | some existing => resolveSchemaType reg existing.name
  | none => none

/-- JavaScript object spread merge `{...a, ...b}`: `a`'s entries in order,
values overwritten in place by `b`, `b`'s new keys appended. -/
def mergeA {α : Type} (a b : List (String × α)) : List (String × α) :=
  b.foldl (fun acc kv => aset kv.1 kv.2 acc) a

/-- `getSchemaValidations`: splits a raw node's entries into the
validations bag (allow-listed keywords) and the extras bag, with the
`nullable`/`x-nullable` pre-passes and the trailing `required === true`
promotion. Arrays and falsy values yield empty bags; truthy primitives
throw (`'nullable' in schema` on a primitive). -/
def getSchemaValidations (schema : Option Json) :
    Except JsErr (List (String × Json) × List (String × Json)) :=
  match schema with
  | none => .ok ([], [])
  | some j =>
    if !Js.truthy j then .ok ([], [])
    else match j with
      | .arr _ => .ok ([], [])
      | .obj fs =>
        let v0 : List (String × Json) :=
          match alookup "nullable" fs with
          | some v => [("nullable", v)]
          | none => []
        let v1 :=
          match alookup "x-nullable" fs with
          | some v => aset "nullable" v v0
          | none => v0
        let step := fun (acc : List (String × Json) × List (String × Json)) (kv : String × Json) =>
          if omitFromExtras.contains kv.1 then acc
          else if validators.contains kv.1 then (aset kv.1 kv.2 acc.1, acc.2)
          else (acc.1, aset kv.1 kv.2 acc.2)
        let vses := fs.foldl step (v1, [])
        let vs :=
          match alookup "required" fs with
          | some (.bool true) => aset "required" (.bool true) vses.1
          | _ => vses.1
        .ok (vs, vses.2)
      | _ => .error (.typeError "cannot use in operator on a primitive")

/-! ### Node-shape dispatch tests -/

/-- `isReferenceObject` (`schema && '$ref' in schema`): falsy values pass,
objects test key presence, truthy primitives throw. -/
def isReferenceObjectE (j : Option Json) : Except JsErr Bool :=
  match j with
  | none => .ok false
  | some v =>
    if !Js.truthy v then .ok false
    else match v with
      | .obj fs => .ok (alookup "$ref" fs).isSome
      | .arr _ => .ok false
      | _ => .error (.typeError "cannot use in operator on a primitive")

/-- `isSecuritySchemeObject`. -/
def isSecuritySchemeObjectE (j : Option Json) : Except JsErr Bool := do
  let has ← Js.hasKey j "type"
  if !has then return false
  match Js.getOpt j "type" with
  | some (.str s) => return securityTypes.contains s
  | _ => return false

/-- `isParameterObject` (`'name' in schema && 'in' in schema`). -/
def isParameterObjectE (j : Option Json) : Except JsErr Bool := do
  let hasName ← Js.hasKey j "name"
  if !hasName then return false
  Js.hasKey j "in"

/-- `parseReferenceObject`: remote references (a `$ref` not starting with
`.`, `#` or `/`) are recorded by their literal string; local ones resolve
through the ref map or fall back to a fresh handle named by the raw
string — an unresolvable local `$ref` does not fail. A `null` `$ref`
throws (`schema.$ref[0]`); non-string values are coerced where used. -/
def parseReferenceObjectC (reg : Reg) (j : Json) : Except JsErr TGVal :=
  match Js.getOpt (some j) "$ref" with
  | none => .error (.typeError "cannot index undefined")
  | some .null => .error (.typeError "cannot index null")
  | some v =>
    let refStr := Js.toStr v
    let isLocal :=
      match refStr.toList with
      | c :: _ => c = '.' || c = '#' || c = '/'
      | [] => false
    if !isLocal then .ok (.refv { name := refStr, tType := TT.remoteRef })
    else
      .ok (match alookup refStr reg.schemaRefMap with
        | some r => .refv r
        | none => .refv { name := refStr, tType := TT.ref })

/-- `parseSecuritySchemeObject` (only reached behind the
`isSecuritySchemeObject` guard, so `type` is a string). -/
def parseSecuritySchemeObjectC (loc : String) (j : Json) : TGVal :=
  let t :=
    match Js.getOpt (some j) "type" with
    | some (.str s) => s
    | _ => ""
  TGVal.model {
    name := some ("Auth" ++ upperFirst t), tType := TT.securityScheme,
    schema := j, location := some (loc ++ ".Auth" ++ upperFirst t),
    type := some t, enumv := none,
    description := Js.getOpt (some j) "description",
    validations := [], extras := [], dependencies := none, fields := [],
    array := false, allOf := none, anyOf := none, oneOf := none }

/-- Resolver input data (`SchemaTypeData`). `required` is the inherited
required-key set (no caller in the source ever passes it). -/
structure SData where
  name : Option String := none
  required : Option (List String) := none

/-- Indexed entries of an array (`Object.entries` on arrays). -/
def idxEntries (i : Nat) : List Json → List (String × Json)
  | [] => []
  | x :: t => (toString i, x) :: idxEntries (i + 1) t

def sizeO : Option Json → Nat
  | none => 0
  | some j => j.size

theorem size_alookup_lt {fs : List (String × Json)} {k : String} {x : Json} :
    alookup k fs = some x → x.size < Json.size (.obj fs) := by
  induction fs with
  | nil => intro h; simp [alookup] at h
  | cons hd t ih =>
    intro h
    obtain ⟨k', v⟩ := hd
    simp only [alookup] at h
    by_cases hk : k' = k
    · simp [hk] at h
      subst h
      simp [Json.size, Json.sizeFields]
      omega
    · simp [hk] at h
      have := ih h
      simp [Json.size, Json.sizeFields] at this ⊢
      omega

theorem sizeO_getOpt_lt (j : Json) (k : String) : sizeO (Js.getOpt (some j) k) < j.size := by
  cases j with
  | obj fs =>
    simp only [Js.getOpt]
    cases h : alookup k fs with
    | none => simpa [sizeO] using Json.size_pos (.obj fs)
    | some v => simpa [sizeO] using size_alookup_lt h
  | null => simpa [Js.getOpt, sizeO] using Json.size_pos .null
  | bool b => simpa [Js.getOpt, sizeO] using Json.size_pos (.bool b)
  | num n => simpa [Js.getOpt, sizeO] using Json.size_pos (.num n)
  | str s => simpa [Js.getOpt, sizeO] using Json.size_pos (.str s)
  | arr xs => simpa [Js.getOpt, sizeO] using Json.size_pos (.arr xs)

theorem sizeFields_idxEntries (xs : List Json) (i : Nat) :
    Json.sizeFields (idxEntries i xs) = Json.sizeList xs := by
  induction xs generalizing i with
  | nil => simp [idxEntries, Json.sizeFields, Json.sizeList]
  | cons x t ih => simp [idxEntries, Json.sizeFields, Json.sizeList, ih]

/-- `Object.entries(schema.properties || {})` (arrays give indexed
entries; the character entries of a non-empty string would make the
property loop's first `in` test throw, so that case throws here). -/
def propsEntriesE (j : Json) : Except JsErr (List (String × Json)) :=
  match Js.getOpt (some j) "properties" with
  | some (.obj pfs) => .ok pfs
  | some (.arr xs) => .ok (idxEntries 0 xs)
  | some (.str s) =>
    if s = "" then .ok [] else .error (.typeError "cannot use in operator on a string")
  | _ => .ok []

theorem sizeFields_propsEntriesE {j : Json} {l : List (String × Json)}
    (h : propsEntriesE j = .ok l) : Json.sizeFields l < j.size := by
  have hs := sizeO_getOpt_lt j "properties"
  have hp := Json.size_pos j
  unfold propsEntriesE at h
  cases hg : Js.getOpt (some j) "properties" with
  | none =>
    rw [hg] at h
    simp at h
    subst h
    simpa [Json.sizeFields] using hp
  | some v =>
    rw [hg] at hs
    cases v with
    | obj pfs =>
      rw [hg] at h
      simp at h
      subst h
      simp [sizeO, Json.size] at hs
      omega
    | arr xs =>
      rw [hg] at h
      simp at h
      subst h
      rw [sizeFields_idxEntries]
      simp [sizeO, Json.size] at hs
      omega
    | str s =>
      rw [hg] at h
      by_cases he : s = ""
      · simp [he] at h
        subst h
        simpa [Json.sizeFields] using hp
      · simp [he] at h
    | null =>
      rw [hg] at h
      simp at h
      subst h
      simpa [Json.sizeFields] using hp
    | bool b =>
      rw [hg] at h
      simp at h
      subst h
      simpa [Json.sizeFields] using hp
    | num n =>
      rw [hg] at h
      simp at h
      subst h
      simpa [Json.sizeFields] using hp

/-! ### The recursive schema resolver

Every recursive `schemaToType` call in the source passes a `null` hint, so
the core dispatch below has no hint parameter; the hinted dispatch used by
`collectDefinitions` is layered on top later. On all of these paths the
registry is only read (`assertRef` is called by the outer layers only), so
the functions take `Reg` without returning it. The shared
`data.deps`/`parsed.dependencies` array of the source is threaded
explicitly as `deps`; a returned model's `dependencies` field holds the
accumulator as of its return, which is its final content, since the
source never pushes into an array after the call that owns it returns. -/

mutual

/-- `schemaToType` (null hint): dispatch by node shape. -/
def schemaToTypeCore (reg : Reg) (loc : String) (j : Option Json) (data : SData)
    (deps : List TGVal) : Except JsErr (TGVal × List TGVal) := do
  if (← isReferenceObjectE j) then
    match j with
    | some jj => return ((← parseReferenceObjectC reg jj), deps)
    | none => throw (.typeError "unreachable: undefined is falsy")
  else if (← isSecuritySchemeObjectE j) then
    match j with
    | some jj => return (parseSecuritySchemeObjectC loc jj, deps)
    | none => throw (.typeError "unreachable: hasKey threw first")
  else if (← isParameterObjectE j) then
    match j with
    | some jj => return ((← parseParameterObjectC reg loc jj data.name), deps)
    | none => throw (.typeError "unreachable: hasKey threw first")
  else
    match j with
    | some jj => parseSchemaObjectC reg loc jj data deps
    | none => throw (.typeError "unreachable: hasKey threw first")
termination_by (sizeO j, 2)

/-- `parseParameterObject`. -/
def parseParameterObjectC (reg : Reg) (loc : String) (j : Json) (nameArg : Option String) :
    Except JsErr TGVal := do
  let pname := Js.orS nameArg ((Js.getOpt (some j) "name").map Js.toStr)
  let inV := Js.getOpt (some j) "in"
  let param0 : ModelF TGVal := {
    name := pname, tType := parameterTType (Js.toStrO inV),
    schema := j, location := some (loc ++ "." ++ Js.jstr nameArg),
    type := none, enumv := none,
    description := Js.getOpt (some j) "description",
    validations := [], extras := [], dependencies := none, fields := [],
    array := false, allOf := none, anyOf := none, oneOf := none }
  let innerName := camelCase (Js.toStrO inV ++ " " ++ Js.toStrO (Js.getOpt (some j) "name")) true
  have _hs := sizeO_getOpt_lt j "schema"
  let pr ← schemaToTypeCore reg loc (Js.getOpt (some j) "schema") { name := some innerName } []
  let parsed := pr.1
  let param1 :=
    if parsed.isTypegenRef then
      { param0 with dependencies := some [parsed], type := parsed.nameO }
    else
      match parsed with
      | .model m =>
        { param0 with
          type := m.type,
          array := m.array,
          validations := m.validations,
          extras := m.extras,
          dependencies := m.dependencies.map (fun l => l.filter TGVal.isTypegenRef) }
      | .refv _ => param0
  let param2 :=
    match Js.getOpt (some j) "required" with
    | some v =>
      if Js.truthy v then { param1 with validations := aset "required" v param1.validations }
      else param1
    | none => param1
  return .model param2
termination_by (j.size, 1)

/-- `parseSchemaObject`: deduplication, validations/extras split, then the
array / additionalProperties / simple / properties / combinators
branches. Only object and array nodes reach here (primitives throw in the
dispatch guards; `null` property reads are modelled by the surrounding
`hasKey`/`getProp` errors). -/
def parseSchemaObjectC (reg : Reg) (loc : String) (j : Json) (data : SData)
    (deps0 : List TGVal) : Except JsErr (TGVal × List TGVal) := do
  match deduplicateSchema reg (some j) with
  | some (some r, _) => return (.refv r, deps0)
  | _ =>
    let pairs : List (String × Json) :=
      match j with
      | .obj fs => fs
      | .arr xs => idxEntries 0 xs
      | _ => []
    let step := fun (acc : List (String × Json) × List (String × Json)) (kv : String × Json) =>
      if omitFromExtras.contains kv.1 then acc
      else if validators.contains kv.1 then (aset kv.1 kv.2 acc.1, acc.2)
      else (acc.1, aset kv.1 kv.2 acc.2)
    let ve := pairs.foldl step ([], [])
    let base : ModelF TGVal := {
      name := data.name, tType := TT.schemaT, schema := j,
      location := some (loc ++ "." ++ Js.jstr data.name),
      type := none, enumv := none,
      description := Js.getOpt (some j) "description",
      validations := ve.1, extras := ve.2.map (fun kv => (kv.1, TGExtra.json kv.2)),
      dependencies := none, fields := [],
      array := false, allOf := none, anyOf := none, oneOf := none }
    if Js.getOpt (some j) "type" = some (.str "array") then
      have _hit : sizeO (Js.getOpt (some j) "items") < j.size := sizeO_getOpt_lt j "items"
      let ir ← schemaToTypeCore reg (loc ++ ".items") (Js.getOpt (some j) "items")
          { name := some (Js.jstr data.name ++ "Items") } deps0
      let items := ir.1
      let typ :=
        if !items.isTypegenRef &&
            (match items.typeO with | some t => primitives.contains t | none => false) then
          items.typeO
        else items.nameO
      let depsF := ir.2 ++ [items.deleteDeps]
      return (.model { base with array := true, type := typ, dependencies := some depsF }, depsF)
    else
      let apStep ← (match hap : Js.getOpt (some j) "additionalProperties" with
        | some v =>
          if Js.truthy v && v ≠ Json.bool true then do
            have _hv : v.size < j.size := by
              have h := sizeO_getOpt_lt j "additionalProperties"
              rw [hap] at h
              simpa [sizeO] using h
            let er ← schemaToTypeCore reg loc (some v)
                { name := some (Js.jstr data.name ++ "Extras") } deps0
            pure ({ base with
              extras := aset "additionalProperties"
                (TGExtra.json (.str (Js.jstr er.1.nameO))) base.extras },
              er.2 ++ [er.1.deleteDeps])
          else pure (base, deps0)
        | none => pure (base, deps0))
      let base1 := apStep.1
      let deps1 := apStep.2
      let isSimple := !(["properties", "oneOf", "allOf", "anyOf"].any
        (fun p => (Js.getOpt (some j) p).isSome))
      if isSimple then
        match Js.getOpt (some j) "type" with
        | some (.str t) =>
          let b2 := if t = "object" then base1 else { base1 with type := some t }
          let b3 :=
            match Js.getOpt (some j) "enum" with
            | some e => if Js.truthy e then { b2 with enumv := some e } else b2
            | none => b2
          return (.model { b3 with dependencies := some deps1 }, deps1)
        | _ => return (.model { base1 with dependencies := some deps1 }, deps1)
      else
        let reqKeys : List String :=
          (data.required.getD []) ++
          (match Js.getOpt (some j) "required" with
           | some (.arr xs) => xs.map Js.toStr
           | _ => [])
        match hpf : propsEntriesE j with
        | .error e => throw e
        | .ok propsFs =>
          have _hprops : Json.sizeFields propsFs < j.size := sizeFields_propsEntriesE hpf
          have _hall := sizeO_getOpt_lt j "allOf"
          have _hany := sizeO_getOpt_lt j "anyOf"
          have _hone := sizeO_getOpt_lt j "oneOf"
          let fr ← parsePropsC reg loc (Js.jstr data.name) propsFs reqKeys deps1
          let base2 := { base1 with fields := fr.1 }
          let co1 ← parseCombOpt reg loc data.name "AllOf" (Js.getOpt (some j) "allOf") fr.2
          let co2 ← parseCombOpt reg loc data.name "AnyOf" (Js.getOpt (some j) "anyOf") co1.2
          let co3 ← parseCombOpt reg loc data.name "OneOf" (Js.getOpt (some j) "oneOf") co2.2
          let base3 := { base2 with allOf := co1.1, anyOf := co2.1, oneOf := co3.1 }
          return (.model { base3 with dependencies := some co3.2 }, co3.2)
termination_by (j.size, 1)

/-- One combinator of `parseCombinators` (`'x' in schema` presence check;
a present non-array value makes `.map` throw). -/
def parseCombOpt (reg : Reg) (loc : String) (baseName : Option String) (comb : String)
    (v : Option Json) (deps : List TGVal) :
    Except JsErr (Option (List TGVal) × List TGVal) := do
  match v with
  | none => return (none, deps)
  | some (.arr xs) =>
    have _h : Json.sizeList xs < sizeO (some (.arr xs)) := by
      simp [sizeO, Json.size]
    let r ← parseCombListC reg loc baseName comb 0 xs deps
    return (some r.1, r.2)
  | some _ => throw (.typeError "map is not a function")
termination_by (sizeO v, 1)

/-- `mapSubschema` over the branches of one combinator: each branch
resolves with the synthetic name `<Parent><Combinator><Index>` and has its
dependency list cleared before attaching. -/
def parseCombListC (reg : Reg) (loc : String) (baseName : Option String) (comb : String)
    (i : Nat) (branches : List Json) (deps : List TGVal) :
    Except JsErr (List TGVal × List TGVal) := do
  match branches with
  | [] => return ([], deps)
  | s :: t =>
    have _h1 : s.size < Json.sizeList (s :: t) := by
      simp only [Json.sizeList]
      omega
    have _h2 : Json.sizeList t < Json.sizeList (s :: t) := by
      simp only [Json.sizeList]
      omega
    let mr ← schemaToTypeCore reg loc (some s)
        { name := some (Js.jstr baseName ++ comb ++ toString i) } deps
    let r ← parseCombListC reg loc baseName comb (i + 1) t mr.2
    return (mr.1.clearDeps :: r.1, r.2)
termination_by (Json.sizeList branches, 0)

/-- The property loop of `parseSchemaProps`: one `Field` per property;
references and non-primitive nested schemas are pushed into the shared
dependency accumulator. -/
def parsePropsC (reg : Reg) (loc : String) (parentName : String)
    (props : List (String × Json)) (reqKeys : List String) (deps : List TGVal) :
    Except JsErr (List TGField × List TGVal) := do
  match props with
  | [] => return ([], deps)
  | (pname, prop) :: rest =>
    have _hrest : Json.sizeFields rest < Json.sizeFields ((pname, prop) :: rest) := by
      simp only [Json.sizeFields]
      omega
    have _ht : sizeO (if Js.truthyO (Js.getOpt (some prop) "items")
        then Js.getOpt (some prop) "items" else some prop) <
        Json.sizeFields ((pname, prop) :: rest) := by
      have h1 : sizeO (Js.getOpt (some prop) "items") < prop.size :=
        sizeO_getOpt_lt prop "items"
      by_cases hc : Js.truthyO (Js.getOpt (some prop) "items")
      · simp only [if_pos hc, Json.sizeFields]
        omega
      · simp only [if_neg hc, Json.sizeFields, sizeO]
        omega
    let field0 : TGField := {
      name := pname, tType := TT.schemaT,
      type := Js.getOpt (some prop) "type",
      subtype := Js.getOpt (some prop) "format",
      validations := [], extras := [],
      description := Js.getOpt (some prop) "description",
      enumv := none, array := false, defaultV := none }
    let hasDef ← Js.hasKey (some prop) "default"
    let field0 := if hasDef then { field0 with defaultV := Js.getOpt (some prop) "default" }
      else field0
    let isRef ← isReferenceObjectE (some prop)
    let ptype := Js.getOpt (some prop) "type"
    let fd ←
      (if isRef then do
        let rv ← parseReferenceObjectC reg prop
        pure ({ field0 with
                type := rv.nameO.map Json.str,
                subtype := some (.str "object"),
                tType := rv.tTypeOf },
              deps ++ [rv])
      else do
        let itemsO := Js.getOpt (some prop) "items"
        let arrayPrim ←
          (if ptype = some (.str "array") then do
            let it ← Js.getProp itemsO "type"
            pure (match it with | some (.str t) => primitives.contains t | _ => false)
          else pure false)
        if arrayPrim then
          let sub := Js.getOpt itemsO "format"
          pure ({ field0 with
                  type := Js.getOpt itemsO "type",
                  array := true,
                  subtype := if Js.truthyO sub then sub else none }, deps)
        else if ptype = some (.str "array") || ptype = some (.str "object")
            || !Js.truthyO ptype then do
          if Js.truthyO (Js.getOpt (some prop) "schema") then
            throw (.errorObj "err")
          let sr ← schemaToTypeCore reg loc
              (if Js.truthyO itemsO then itemsO else some prop)
              { name := some (parentName ++ capFirst pname) } deps
          let sub := sr.1
          let f1 := { field0 with tType := sub.tTypeOf, type := sub.nameO.map Json.str }
          if sub.tTypeOf ≠ TT.primitive then
            pure ({ f1 with subtype := some (.str "object") }, sr.2 ++ [sub.deleteDeps])
          else pure (f1, sr.2)
        else pure (field0, deps))
    let field2 := if ptype = some (.str "array") then { fd.1 with array := true } else fd.1
    let hasEnum ← Js.hasKey (some prop) "enum"
    let field3 := if hasEnum then { field2 with enumv := Js.getOpt (some prop) "enum" }
      else field2
    let field4 ←
      (if !isRef then do
        let ve ← getSchemaValidations (some prop)
        pure { field3 with
               validations := mergeA field3.validations ve.1,
               extras := mergeA field3.extras (ve.2.map (fun kv => (kv.1, TGExtra.json kv.2))) }
      else pure field3)
    let field5 := if reqKeys.contains pname then
        { field4 with validations := aset "required" (.bool true) field4.validations }
      else field4
    let r ← parsePropsC reg loc parentName rest reqKeys fd.2
    return (field5 :: r.1, r.2)
termination_by (Json.sizeFields props, 0)

end

/-! ### The stateful layer: `assertRef` and the operation parsers -/

/-- `assertRef`: an already-parsed reference short-circuits through
`resolveSchemaType`; a raw `$ref` node resolves by its ref string;
otherwise the model is registered under the active hash key and under its
own name (one shared ref object, name-key assignment first), with
validations and extras extracted from the raw node merged into the stored
model. The JavaScript result (`null`, or `{ref, model}` whose parts may
individually be `undefined`) is an `Option` of a pair of `Option`s. -/
def assertRefS (reg : Reg) (schema : Option Json) (parsed : TGVal) (name : Option String) :
    Except JsErr (Option (Option TypeGenRef × Option (ModelF TGVal)) × Reg) := do
  if parsed.isTypegenRef then
    return (resolveSchemaType reg (Js.jstr parsed.nameO), reg)
  else if (← isReferenceObjectE schema) then
    return (resolveSchemaType reg (Js.toStrO (Js.getOpt schema "$ref")), reg)
  else
    let hashK := getModelHash reg schema (some parsed) name
    let reg1 :=
      if (alookup (Js.jstr hashK) reg.schemaRefMap).isSome then reg
      else
        let newRef : TypeGenRef := { name := Js.jstr parsed.nameO, tType := TT.ref }
        let m2 := aset (Js.jstr hashK) newRef
          (aset (Js.jstr parsed.nameO) newRef reg.schemaRefMap)
        { reg with schemaRefMap := m2 }
    let reg2 ← (match parsed with
      | .model m => do
        let ve ← getSchemaValidations (some m.schema)
        let m' := { m with
          validations := mergeA m.validations ve.1,
          extras := mergeA m.extras (ve.2.map (fun kv => (kv.1, TGExtra.json kv.2))) }
        pure { reg1 with refContentMap := aset (Js.jstr m.name) m' reg1.refContentMap }
      | .refv _ => pure reg1)
    match alookup (Js.jstr hashK) reg2.schemaRefMap with
    | some ref => return (resolveSchemaType reg2 ref.name, reg2)
    | none => throw (.typeError "cannot read 'name' of undefined")

/-- `Object.entries(v || {})`: falsy values give nothing; non-empty
strings yield character entries (whose per-entry processing throws later,
as in the source). -/
def entriesOrElse (v : Option Json) : List (String × Json) :=
  match v with
  | some (.obj fs) => fs
  | some (.arr xs) => idxEntries 0 xs
  | some (.str s) => idxEntries 0 (s.toList.map (fun c => Json.str (String.mk [c])))
  | _ => []

/-- `Object.entries(v)` (throwing on `undefined`/`null`). -/
def jsEntriesE : Option Json → Except JsErr (List (String × Json))
  | none => .error (.typeError "cannot convert undefined to object")
  | some .null => .error (.typeError "cannot convert null to object")
  | some (.obj fs) => .ok fs
  | some (.arr xs) => .ok (idxEntries 0 xs)
  | some (.str s) => .ok (idxEntries 0 (s.toList.map (fun c => Json.str (String.mk [c]))))
  | some _ => .ok []

/-- `{...param, name, in: 'headers'}` for synthesized header parameters. -/
def spreadHeaderParam (param : Json) (pname : String) : Json :=
  match param with
  | .obj fs => .obj (aset "in" (.str "headers") (aset "name" (.str pname) fs))
  | _ => .obj [("name", .str pname), ("in", .str "headers")]

/-- The slice of a `TypeGenMethod` that `getResponseName` reads: the
owning path's name, the raw `tags` value and the HTTP verb. -/
structure MethodView where
  pathName : String
  tags : Option Json
  verb : Option String

def stripBraces (s : String) : String :=
  String.mk (s.toList.filter (fun c => (c != Char.ofNat 123) && (c != Char.ofNat 125)))

/-- `method.tags?.[0]`. -/
def jsIdx0 : Option Json → Option Json
  | some (.arr (x :: _)) => some x
  | some (.str s) =>
    match s.toList with
    | c :: _ => some (.str (String.mk [c]))
    | [] => none
  | _ => none

/-- `getResponseName`: the ordered, de-duplicated parts
tag / last path segment / verb / sanitized content type / status code,
empty parts skipped, joined without separators. `status` is
`none` for `null`/`undefined` (skipped), `some none` for `NaN`. -/
def getResponseName (mv : MethodView) (contentType : String)
    (status : Option (Option Int)) : String :=
  let pathSeg := stripBraces (String.mk ((splitSlash mv.pathName.toList).getLastD []))
  let tagPart := camelCase (Js.toStrO (jsIdx0 mv.tags)) true
  let pathPart := camelCase pathSeg true
  let verbPart :=
    match mv.verb with
    | some v => if v = "" then "" else camelCase v true
    | none => ""
  let ctPart := jsTrim (camelCase (String.mk (sanitizeCT contentType.toList)) true)
  let statusPart :=
    match status with
    | none => ""
    | some none => "NaN"
    | some (some n) => toString n
  let parts := dedupFirst [tagPart, pathPart] ++ [verbPart, ctPart, statusPart]
  String.join (parts.filter (fun s => s != ""))

/-- The shared header-map loop of `parseResponseObject` and
`parseMethodResponse`: reference headers resolve through the registry
(`.ref` on a failed resolution throws); inline headers are synthesized
into parameters and asserted. -/
def parseHeadersLoop (reg : Reg) (loc : String) (hEntries : List (String × Json)) :
    Except JsErr (List (String × Option TypeGenRef) × Reg) :=
  hEntries.foldlM (fun acc kv => do
    let (hs, reg) := acc
    if (← isReferenceObjectE (some kv.2)) then
      match resolveSchemaType reg (Js.toStrO (Js.getOpt (some kv.2) "$ref")) with
      | some pr => pure (aset kv.1 pr.1 hs, reg)
      | none => throw (.typeError "cannot read 'ref' of null")
    else
      let headerSchema := spreadHeaderParam kv.2 kv.1
      let pv ← parseParameterObjectC reg loc headerSchema none
      let (res, reg2) ← assertRefS reg (some headerSchema) pv none
      match res with
      | some pr => pure (aset kv.1 pr.1 hs, reg2)
      | none => throw (.typeError "cannot read 'ref' of null"))
    ([], reg)

/-- `parseResponseObject` (component responses / request bodies): a
`$ref` re-resolves through the registry, throwing the fixed string
'did not parse response' when it cannot; headers are synthesized into
parameters and recorded under `extras.headers`. -/
def parseResponseObjectS (reg : Reg) (loc : String) (j : Json) (data : SData)
    (tType : String) : Except JsErr (TGVal × Reg) := do
  let schemaJ ← (do
    if (← isReferenceObjectE (some j)) then
      match (resolveSchemaType reg (Js.toStrO (Js.getOpt (some j) "$ref"))).bind
          (fun p => p.2.map (fun m => m.schema)) with
      | some s => if Js.truthy s then pure s else throw (.strLit "did not parse response")
      | none => throw (.strLit "did not parse response")
    else pure j)
  let reqV ← Js.getProp (some schemaJ) "required"
  let parsed0 : ModelF TGVal := {
    name := data.name, tType := tType, schema := schemaJ,
    location := some loc,
    validations := if Js.truthyO reqV then [("required", .bool true)] else [],
    extras := [], type := none, enumv := none, description := none,
    dependencies := none, fields := [], array := false,
    allOf := none, anyOf := none, oneOf := none }
  let hasHeaders ← Js.hasKey (some schemaJ) "headers"
  if !hasHeaders then
    return (.model parsed0, reg)
  else do
    let hEntries := entriesOrElse (Js.getOpt (some schemaJ) "headers")
    let (exH, reg2) ← parseHeadersLoop reg loc hEntries
    let parsed1 :=
      if hEntries.isEmpty then parsed0
      else { parsed0 with extras := aset "headers" (TGExtra.headersM exH) parsed0.extras }
    return (.model parsed1, reg2)

/-- `parseMethodResponse`: per status code, one `TypeGenResponse` per
declared content type; content-less responses produce a single untyped
entry; primitive payloads inline their type; array payloads resolve the
item type; object payloads register through `assertRef`. `status` is
`none` for `NaN` (an unparsable status key). -/
def parseMethodResponseS (reg : Reg) (loc : String) (mv : MethodView) (j : Json)
    (status : Option Int) : Except JsErr (List TGResponse × Reg) := do
  let respSchema ← (do
    if (← isReferenceObjectE (some j)) then
      match (resolveSchemaType reg (Js.toStrO (Js.getOpt (some j) "$ref"))).bind
          (fun p => p.2.map (fun m => m.schema)) with
      | some s => if Js.truthy s then pure s else throw (.strLit "did not parse response")
      | none => throw (.strLit "did not parse response")
    else pure j)
  let headersV ← Js.getProp (some respSchema) "headers"
  let (headers, reg) ← parseHeadersLoop reg loc (entriesOrElse headersV)
  let contentV ← Js.getProp (some respSchema) "content"
  if !Js.truthyO contentV then
    return ([{ name := getResponseName mv "" (some status), status := status,
               tType := TT.response, type := none, payload := none,
               headers := headers,
               description := Js.getOpt (some respSchema) "description",
               contentType := none, array := false }], reg)
  else
    (entriesOrElse contentV).foldlM (fun acc kv => do
      let (resps, reg) := acc
      let contentType := kv.1
      let payload := kv.2
      let rname := getResponseName mv contentType (some status)
      let ps ← Js.getProp (some payload) "schema"
      let hasType ← Js.hasKey ps "type"
      let ptype := Js.getOpt ps "type"
      if hasType && (match ptype with
          | some (.str t) => primitives.contains t
          | _ => false) then
        let resp : TGResponse := {
          name := rname, status := status, tType := TT.response,
          type := (match ptype with | some (.str t) => some t | _ => none),
          payload := none, headers := headers,
          description := Js.getOpt (some respSchema) "description",
          contentType := some contentType, array := false }
        pure (resps ++ [resp], reg)
      else if hasType && ptype = some (.str "array") then do
        let hasItems ← Js.hasKey ps "items"
        if !hasItems then throw (.strLit "is array type without items?")
        let itemsV := Js.getOpt ps "items"
        let ir ← schemaToTypeCore reg loc itemsV { name := some rname } []
        let itemType := ir.1
        let (ar, reg2) ← assertRefS reg itemsV itemType (Js.orS itemType.nameO (some rname))
        let payloadRef ← (match ar with
          | some pr => pure pr.1
          | none => throw (.typeError "cannot read 'ref' of null"))
        let pn ← (match payloadRef with
          | some r => pure r.name
          | none => throw (.typeError "cannot read 'name' of undefined"))
        let resp : TGResponse := {
          name := Js.jstr (Js.orS itemType.nameO (some rname)),
          status := status, tType := TT.response, type := some pn,
          payload := payloadRef, headers := headers,
          description := Js.getOpt (some respSchema) "description",
          contentType := some contentType, array := true }
        pure (resps ++ [resp], reg2)
      else do
        let sr ← schemaToTypeCore reg loc ps { name := some rname } []
        let (ar, reg2) ← assertRefS reg ps sr.1 (some rname)
        let payloadRef ← (match ar with
          | some pr => pure pr.1
          | none => throw (.typeError "cannot read 'ref' of null"))
        let pn ← (match payloadRef with
          | some r => pure r.name
          | none => throw (.typeError "cannot read 'name' of undefined"))
        let resp : TGResponse := {
          name := rname, status := status, tType := TT.response,
          type := some pn, payload := payloadRef, headers := headers,
          description := Js.getOpt (some respSchema) "description",
          contentType := some contentType, array := false }
        pure (resps ++ [resp], reg2))
      ([], reg)

/-- One iteration of `parseMethodRequestBody`'s content loop: resolve the
payload schema, assert it into the registry, and append one `TypeGenBody`
for this content type. -/
def requestBodyStep (loc : String) (mv : MethodView) (schemaJ : Json)
    (acc : List TGBody × Reg) (kv : String × Json) : Except JsErr (List TGBody × Reg) := do
  let (bs, reg) := acc
  let contentType := kv.1
  let payload := kv.2
  let bname := getResponseName mv contentType none
  let ps ← Js.getProp (some payload) "schema"
  let sr ← schemaToTypeCore reg loc ps { name := some bname } []
  let (ar, reg2) ← assertRefS reg ps sr.1 (some bname)
  let payloadRef ← (match ar with
    | some pr => pure pr.1
    | none => throw (.typeError "cannot read 'ref' of null"))
  let r ← (match payloadRef with
    | some r => pure r
    | none => throw (.typeError "cannot read 'name' of undefined"))
  let body : TGBody := {
    name := bname, tType := TT.requestBody, payload := r, type := r.name,
    description := Js.getOpt (some schemaJ) "description",
    contentType := contentType }
  pure (bs ++ [body], reg2)

/-- `parseMethodRequestBody`: one `TypeGenBody` per content-type entry of
the request body — several content shapes produce several entries, with
no error raised. An unresolvable request-body `$ref` crashes with a
`TypeError` (`.model` of `null`). -/
def parseMethodRequestBodyS (reg : Reg) (loc : String) (mv : MethodView) (request : Json) :
    Except JsErr (List TGBody × Reg) := do
  let schemaJ ← (do
    if (← isReferenceObjectE (some request)) then
      match resolveSchemaType reg (Js.toStrO (Js.getOpt (some request) "$ref")) with
      | none => throw (.typeError "cannot read 'model' of null")
      | some pr =>
        match pr.2 with
        | none => throw (.typeError "cannot read 'schema' of undefined")
        | some m => pure m.schema
    else pure request)
  let contentV ← Js.getProp (some schemaJ) "content"
  (entriesOrElse contentV).foldlM (requestBodyStep loc mv schemaJ) ([], reg)

/-! ### Method and path records, heap operations -/

namespace MHeap

def allocRef (h : MHeap) : Nat × MHeap :=
  (h.next, { h with refArrs := h.refArrs ++ [(h.next, [])], next := h.next + 1 })

def allocResp (h : MHeap) : Nat × MHeap :=
  (h.next, { h with respArrs := h.respArrs ++ [(h.next, [])], next := h.next + 1 })

def allocBody (h : MHeap) : Nat × MHeap :=
  (h.next, { h with bodyArrs := h.bodyArrs ++ [(h.next, [])], next := h.next + 1 })

def pushRef (h : MHeap) (id : Nat) (v : Option TypeGenRef) : MHeap :=
  match alookup id h.refArrs with
  | some l => { h with refArrs := aset id (l ++ [v]) h.refArrs }
  | none => h

def pushResps (h : MHeap) (id : Nat) (vs : List TGResponse) : MHeap :=
  match alookup id h.respArrs with
  | some l => { h with respArrs := aset id (l ++ vs) h.respArrs }
  | none => h

def pushBodies (h : MHeap) (id : Nat) (vs : List TGBody) : MHeap :=
  match alookup id h.bodyArrs with
  | some l => { h with bodyArrs := aset id (l ++ vs) h.bodyArrs }
  | none => h

def getRefArr (h : MHeap) (id : Nat) : List (Option TypeGenRef) :=
  (alookup id h.refArrs).getD []

end MHeap

/-- The fields of a `TypeGenMethod` other than the `path` back-reference.
The four parameter/response lists are heap array ids: the spread-copied
snapshot in the owning path shares them, while the aggregate objects and
`requestBodies` are plain properties the snapshot copies by value
(`requestBodies := none` models an absent property). -/
structure TGMethodCore where
  name : String
  method : String
  tType : String
  schema : Json
  tags : Option Json
  description : Option Json
  pathParams : Nat
  headerParams : Nat
  queryParams : Nat
  responses : Nat
  security : List Json
  pathObject : Option TypeGenRef
  headerObject : Option TypeGenRef
  queryObject : Option TypeGenRef
  requestBodies : Option Nat

/-- A fully parsed method, with its back-reference to the owning path
modelled by the path's name. -/
structure TGMethodH extends TGMethodCore where
  pathName : String

/-- The spread-copied snapshot pushed into the owning path's `methods`
list, whose `path` is the acyclic placeholder string. -/
structure TGSnap extends TGMethodCore where
  path : String

/-- `TypeGenPathItem`. -/
structure TGPath where
  name : String
  tType : String
  schema : Json
  methods : List TGSnap

/-- `parsePathObject`. -/
def parsePathObject (name : String) (defn : Json) : TGPath :=
  { name := name, tType := TT.path, schema := defn, methods := [] }

/-- `schemaToType` with the `ParameterObject` hint and no data, as the
method parameter loop calls it: after the node-shape checks (which route
genuine parameters, references and security schemes), the `parse${hint}`
table lands every remaining node in `parseParameterObject` with an
undefined name. -/
def schemaToTypeParamHint (reg : Reg) (loc : String) (j : Option Json) :
    Except JsErr TGVal := do
  if (← isReferenceObjectE j) then
    match j with
    | some jj => parseReferenceObjectC reg jj
    | none => throw (.typeError "unreachable: undefined is falsy")
  else if (← isSecuritySchemeObjectE j) then
    match j with
    | some jj => return parseSecuritySchemeObjectC loc jj
    | none => throw (.typeError "unreachable: hasKey threw first")
  else
    match j with
    | some jj => parseParameterObjectC reg loc jj none
    | none => throw (.typeError "unreachable: hasKey threw first")

/-- `buildParamObject`: synthesize one struct-like model from the
already-resolved parameter refs of one location, re-reading each one's
model from the registry, and register it through `assertRef` like any
named schema. Returns `null` for an empty parameter list. -/
def buildParamObjectS (reg : Reg) (params : List (Option TypeGenRef)) (name : String) :
    Except JsErr (Option TypeGenRef × Reg) := do
  if params.isEmpty then return (none, reg)
  let dfr ← params.foldlM (fun (acc : List TGVal × List TGField × Reg) pOpt => do
    let (ds, fs, reg) := acc
    let p ← (match pOpt with
      | some p => pure p
      | none => throw (.typeError "cannot read 'name' of undefined"))
    let mOpt ← (match resolveSchemaType reg p.name with
      | some pr => pure pr.2
      | none => throw (.typeError "cannot read 'model' of null"))
    let m ← (match mOpt with
      | some m => pure m
      | none => throw (.typeError "cannot read 'schema' of undefined"))
    let schN ← Js.getProp (some m.schema) "name"
    let sschema := Js.getOpt (some m.schema) "schema"
    let fmt := Js.getOpt sschema "format"
    let itemsFmt := Js.getOpt (Js.getOpt sschema "items") "format"
    let subT :=
      match fmt with
      | some v => if Js.truthy v then some v else itemsFmt
      | none => itemsFmt
    let enumV :=
      match m.enumv with
      | some e => if Js.truthy e then some e else Js.getOpt sschema "enum"
      | none => Js.getOpt sschema "enum"
    let field : TGField := {
      name := Js.toStrO schN, tType := m.tType, type := m.type.map Json.str,
      subtype := subT, validations := m.validations, extras := m.extras,
      description := m.description, enumv := enumV, array := m.array,
      defaultV := none }
    let ds' := match m.dependencies with
      | some l => ds ++ l
      | none => ds
    pure (ds', fs ++ [field], reg))
    ([], [], reg)
  let (deps, fields, reg) := dfr
  let aggSchema : Json := .obj [("name", .str name)]
  let model : ModelF TGVal := {
    name := some name, tType := TT.methodParam, schema := aggSchema,
    location := none, dependencies := some deps, fields := fields,
    validations := [], extras := [], type := none, enumv := none,
    description := none, array := false, allOf := none, anyOf := none, oneOf := none }
  let (res, reg2) ← assertRefS reg (some aggSchema) (.model model) (some name)
  return (res.bind (fun p => p.1), reg2)

/-- The request-body tail of `parseMethodObject`: when the operation has a
truthy `requestBody`, parse it; when at least one body came back,
allocate the `requestBodies` array (`opItem.requestBodies ||= []`) and
push them all. -/
def attachRequestBodies (core1 : TGMethodCore) (reg : Reg) (pathName verb : String)
    (mview : MethodView) (opSchema : Json) : Except JsErr (TGMethodCore × Reg) := do
  match Js.getOpt (some opSchema) "requestBody" with
  | some rb =>
    if Js.truthy rb then do
      let locB := "paths." ++ pathName ++ "." ++ verb ++ ".requestBody"
      let (bodies, reg2) ← parseMethodRequestBodyS reg locB mview rb
      if bodies.length > 0 then
        let (bid, h) := reg2.heap.allocBody
        pure ({ core1 with requestBodies := some bid },
              { reg2 with heap := h.pushBodies bid bodies })
      else pure (core1, reg2)
    else pure (core1, reg)
  | none => pure (core1, reg)

/-- `parseMethodObject`: build the method record, push its spread-copied
snapshot into the owning path immediately, then parse parameters into the
shared arrays, build the three aggregate parameter objects, parse
responses into the shared array and attach request bodies (allocating
`requestBodies` only when at least one body parsed). -/
def parseMethodObjectS (reg : Reg) (loc : String) (verb : String) (opSchema : Json)
    (path : TGPath) : Except JsErr (TGMethodH × TGSnap × TGPath × Reg) := do
  let opName := camelCase (Js.toStrO (Js.getOpt (some opSchema) "operationId")) true
  let (pid, h1) := reg.heap.allocRef
  let (hid, h2) := h1.allocRef
  let (qid, h3) := h2.allocRef
  let (rid, h4) := h3.allocResp
  let reg := { reg with heap := h4 }
  let core0 : TGMethodCore := {
    name := opName, method := verb, tType := TT.methodT, schema := opSchema,
    tags := Js.getOpt (some opSchema) "tags",
    description := Js.getOpt (some opSchema) "description",
    pathParams := pid, headerParams := hid, queryParams := qid, responses := rid,
    security := [], pathObject := none, headerObject := none, queryObject := none,
    requestBodies := none }
  let snap : TGSnap := { core0 with path := "<circular " ++ path.name ++ ">" }
  let path1 := { path with methods := path.methods ++ [snap] }
  let mview : MethodView := { pathName := path.name, tags := core0.tags, verb := some verb }
  -- for (const param of schema.parameters || [])
  let pEntries ← (match Js.getOpt (some opSchema) "parameters" with
    | some (.arr xs) => pure xs
    | some (.str s) => pure (s.toList.map (fun c => Json.str (String.mk [c])))
    | some v =>
      if Js.truthy v then throw (JsErr.typeError "is not iterable")
      else pure ([] : List Json)
    | none => pure ([] : List Json))
  let reg ← pEntries.foldlM (fun reg param => do
    let parsed ← schemaToTypeParamHint reg loc (some param)
    let (res, reg2) ← assertRefS reg (some param) parsed none
    let pr ← (match res with
      | some pr => pure pr
      | none => throw (.typeError "cannot destructure null"))
    let m ← (match pr.2 with
      | some m => pure m
      | none => throw (.typeError "cannot read 'schema' of undefined"))
    let inV ← Js.getProp (some m.schema) "in"
    if inV = some (.str "path") then
      pure { reg2 with heap := reg2.heap.pushRef pid pr.1 }
    else if inV = some (.str "header") then
      pure { reg2 with heap := reg2.heap.pushRef hid pr.1 }
    else if inV = some (.str "query") then
      pure { reg2 with heap := reg2.heap.pushRef qid pr.1 }
    else pure reg2) reg
  let (po, reg) ← buildParamObjectS reg (reg.heap.getRefArr pid) (opName ++ "Path")
  let (ho, reg) ← buildParamObjectS reg (reg.heap.getRefArr hid) (opName ++ "Headers")
  let (qo, reg) ← buildParamObjectS reg (reg.heap.getRefArr qid) (opName ++ "Query")
  let core1 := { core0 with pathObject := po, headerObject := ho, queryObject := qo }
  let respV ← Js.getProp (some opSchema) "responses"
  let reg ← (entriesOrElse respV).foldlM (fun reg kv => do
    let locR := "paths." ++ path.name ++ "." ++ verb ++ ".responses"
    let (rs, reg2) ← parseMethodResponseS reg locR mview kv.2 (Js.parseIntJs kv.1)
    if rs.length > 0 then
      pure { reg2 with heap := reg2.heap.pushResps rid rs }
    else pure reg2) reg
  let cr ← attachRequestBodies core1 reg path.name verb mview opSchema
  return ({ toTGMethodCore := cr.1, pathName := path.name }, snap, path1, cr.2)

/-! ### Event emitter and `parseSchema` -/

/-- An entity delivered to listeners. -/
inductive Entity where
  | methodE (m : TGMethodH)
  | pathE (p : TGPath)
  | modelE (m : ModelF TGVal)

/-- One slot of `parsedSchemas`: the `referenceMap` object installed by
`clearData`, or a category's entity array. -/
inductive EmitSlot where
  | refMapMarker
  | entities (es : List Entity)

/-- Emitter state: the snapshot under construction and the ordered log of
`(category, entity)` deliveries listeners have received. -/
structure Emit where
  parsedSchemas : List (String × EmitSlot)
  log : List (String × Entity)

/-- `clearData`'s emitter half: `parsedSchemas = {referenceMap: ...}`. -/
def Emit.init : Emit := { parsedSchemas := [("referenceMap", .refMapMarker)], log := [] }

/-- `emit`: for each category, push the entity onto that category's list
(creating it on first use) and synchronously deliver to its listeners.
Pushing onto the `referenceMap` slot — not an array — would crash, which
`none` models; no call site reaches it. -/
def emitOne (em : Emit) (cats : List String) (e : Entity) : Option Emit :=
  cats.foldlM (fun em cat =>
    match alookup cat em.parsedSchemas with
    | some .refMapMarker => none
    | some (.entities l) =>
      some { parsedSchemas := aset cat (.entities (l ++ [e])) em.parsedSchemas,
             log := em.log ++ [(cat, e)] }
    | none =>
      some { parsedSchemas := aset cat (.entities [e]) em.parsedSchemas,
             log := em.log ++ [(cat, e)] }) em

/-- The deliveries `loadParsed` makes when replaying a snapshot: every key
except `referenceMap` and `schemaRefMap`, in key order, each entity in
list order (the marker only ever sits under `referenceMap`, which the
filter removes). -/
def loadParsedDeliveries (ps : List (String × EmitSlot)) : List (String × Entity) :=
  (ps.filter (fun kv => (kv.1 != "referenceMap") && (kv.1 != "schemaRefMap"))).foldl
    (fun acc kv =>
      acc ++ (match kv.2 with
        | .entities l => l.map (fun e => (kv.1, e))
        | .refMapMarker => [])) []

/-- `schemaToType` with the component-section hint, as
`collectDefinitions` calls it: node-shape checks first, then the
response/request-body branch, then the `parse${hint}` method table
(`SchemaObject`, `SecuritySchemeObject` and `ParameterObject` exist;
every other hint falls through to `parseSchemaObject`). The mismatched
`ParameterObject` table call passes the whole data object as the `name`
parameter, which later string-coerces to "[object Object]". -/
def schemaToTypeS (reg : Reg) (loc : String) (j : Json) (hint : String) (data : SData) :
    Except JsErr (TGVal × Reg) := do
  if (← isReferenceObjectE (some j)) then
    return ((← parseReferenceObjectC reg j), reg)
  else if (← isSecuritySchemeObjectE (some j)) then
    return (parseSecuritySchemeObjectC loc j, reg)
  else if (← isParameterObjectE (some j)) then
    return ((← parseParameterObjectC reg loc j data.name), reg)
  else if hint = "ResponseObject" || hint = "RequestBodyObject" then
    parseResponseObjectS reg loc j data
      (if hint = "ResponseObject" then TT.response else TT.requestBody)
  else if hint = "SchemaObject" then do
    let r ← parseSchemaObjectC reg loc j data []
    return (r.1, reg)
  else if hint = "SecuritySchemeObject" then
    return (parseSecuritySchemeObjectC loc j, reg)
  else if hint = "ParameterObject" then
    return ((← parseParameterObjectC reg loc j (some "[object Object]")), reg)
  else do
    let r ← parseSchemaObjectC reg loc j data []
    return (r.1, reg)

/-- `collectDefinitions`: install the declared-name hasher, resolve every
entry of every component section (pushing two assertions per entry: one
keyed by its `#/components/...` path, one by its serialized content),
then run all assertions, and restore the hasher. -/
def collectDefinitionsS (reg : Reg) (doc : Json) : Except JsErr Reg := do
  let orig := reg.hasher
  let reg := { reg with hasher := true }
  let comps ← jsEntriesE (Js.getOpt (some doc) "components")
  let ar ← comps.foldlM
    (fun (acc : List (Json × TGVal × String) × Reg) sec => do
      let inner ← jsEntriesE (some sec.2)
      let typeHint := (schemaTypeHints sec.1).getD (jsToUpper sec.1)
      let loc := "components." ++ sec.1
      inner.foldlM (fun (acc2 : List (Json × TGVal × String) × Reg) nv => do
        let (asrts, reg2) := acc2
        let (model, reg3) ← schemaToTypeS reg2 loc nv.2 typeHint { name := some nv.1 }
        pure (asrts ++
          [(nv.2, model, "#/components/" ++ sec.1 ++ "/" ++ nv.1),
           (nv.2, model, stringify nv.2)], reg3)) acc)
    ([], reg)
  let regF ← ar.1.foldlM (fun reg a => do
    let (_, reg2) ← assertRefS reg (some a.1) a.2.1 (some a.2.2)
    pure reg2) ar.2
  return { regF with hasher := orig }

/-- One iteration of the verb loop: skip a falsy verb entry, otherwise
parse the operation and emit the method entity. -/
def pathMethodStep (pathName : String) (pathDef : Json) (acc : Reg × Emit × TGPath)
    (m : String) : Except JsErr (Reg × Emit × TGPath) := do
  let (reg, em, pp) := acc
  let mv ← Js.getProp (some pathDef) m
  if !Js.truthyO mv then pure (reg, em, pp)
  else
    match mv with
    | some opSchema => do
      let loc := "paths." ++ pathName ++ "." ++ m
      let (opItem, _, pp', reg2) ← parseMethodObjectS reg loc m opSchema pp
      match emitOne em [TT.methodT] (.methodE opItem) with
      | some em2 => pure (reg2, em2, pp')
      | none => throw (.typeError "push is not a function")
    | none => pure (reg, em, pp)

/-- The inner verb loop of `parseSchema`'s path walk: iterate the fixed
`methods` key order, skip absent (falsy) verbs, parse and emit each
present operation. -/
def parsePathMethodsS (reg : Reg) (em : Emit) (pathName : String) (pathDef : Json)
    (pp : TGPath) : Except JsErr (Reg × Emit × TGPath) :=
  methodsList.foldlM (pathMethodStep pathName pathDef) (reg, em, pp)

/-- The verbs of `methodsList` whose entry on a path object is truthy: the
order in which the walker visits (and emits) a path's operations. -/
def presentVerbs (pathDef : Json) : List String :=
  methodsList.filter (fun m => Js.truthyO (Js.getOpt (some pathDef) m))

/-- `parseSchema`: the `openapi` version guard (a thrown `Error` naming
the offending value and the source file, before any other work), the
state reset, definition collection, the path/method walk with its
interleaved emissions, and the final per-model emissions. -/
def parseSchemaS (doc : Option Json) (filename : Option String) :
    Except JsErr (Reg × Emit) := do
  let openapiV := Js.getOpt doc "openapi"
  let ok ← (match openapiV with
    | some (.str s) => pure (jsStartsWith s "3.")
    | none => pure false
    | some .null => pure false
    | some _ => throw (JsErr.typeError "startsWith is not a function"))
  if !ok then
    throw (.errorObj ("Invalid schema - only 3.x is supported: '" ++
      Js.toStrO openapiV ++ "', " ++ Js.jstr filename))
  let docJ ← (match doc with
    | some d => pure d
    | none => throw (JsErr.typeError "unreachable: guarded above"))
  let reg1 ← collectDefinitionsS Reg.init docJ
  let pathsL ← jsEntriesE (Js.getOpt (some docJ) "paths")
  let walked ← pathsL.foldlM (fun (acc : Reg × Emit) p => do
    let (reg, em) := acc
    let parsedPath := parsePathObject p.1 p.2
    let (reg', em', pp') ← parsePathMethodsS reg em p.1 p.2 parsedPath
    match emitOne em' [TT.path] (.pathE pp') with
    | some em2 => pure (reg', em2)
    | none => throw (JsErr.typeError "push is not a function"))
    (reg1, Emit.init)
  let emF ← walked.1.refContentMap.foldlM (fun em kv => do
    match emitOne em [kv.2.tType, TT.model] (.modelE kv.2) with
    | some em2 => pure em2
    | none => throw (JsErr.typeError "push is not a function")) walked.2
  return (walked.1, emF)

/-! ### Evaluation support

The resolver core is compiled by well-founded recursion, so concrete runs
are evaluated in proofs through the definitional equations; marking the
embedding `@[simp]` lets `simp` carry such evaluations out. -/

attribute [simp] Js.jstr Js.orS Js.truthy Js.truthyO Js.toStr Js.toStrList Js.toStrO
  Js.getOpt Js.getProp Js.hasKey Js.parseIntJs
attribute [simp] alookup aset mergeA stringify stringifyList stringifyFields escape
attribute [simp] camelScan camelCase upperFirst capFirst sanitizeCT sanitizeRun
  dedupFirst isWordChar isSepChar isAlnum splitSlash isJsSpace jsTrim jsStartsWith jsToUpper
attribute [simp] validators omitFromExtras primitives methodsList securityTypes
  schemaTypeHints parameterTType
attribute [simp] TT.ref TT.path TT.methodT TT.schemaT TT.model TT.parameter
  TT.queryParameter TT.headersParameter TT.pathParameter TT.securityScheme TT.response
  TT.requestBody TT.primitive TT.remoteRef TT.methodParam
attribute [simp] String.join
attribute [simp] TGVal.nameO TGVal.tTypeOf TGVal.typeO TGVal.isTypegenRef
  TGVal.deleteDeps TGVal.clearDeps
attribute [simp] Reg.init MHeap.empty Emit.init resolveSchemaType getModelHash
  getRefFromSchema deduplicateSchema getSchemaValidations mergeA
attribute [simp] isReferenceObjectE isSecuritySchemeObjectE isParameterObjectE
  parseReferenceObjectC parseSecuritySchemeObjectC idxEntries sizeO propsEntriesE
attribute [simp] schemaToTypeCore parseParameterObjectC parseSchemaObjectC parseCombOpt
  parseCombListC parsePropsC
attribute [simp] assertRefS entriesOrElse jsEntriesE spreadHeaderParam stripBraces jsIdx0
  getResponseName parseHeadersLoop parseResponseObjectS parseMethodResponseS
  requestBodyStep parseMethodRequestBodyS
attribute [simp] MHeap.allocRef MHeap.allocResp MHeap.allocBody MHeap.pushRef
  MHeap.pushResps MHeap.pushBodies MHeap.getRefArr
attribute [simp] parsePathObject schemaToTypeParamHint buildParamObjectS
  attachRequestBodies parseMethodObjectS
attribute [simp] emitOne loadParsedDeliveries schemaToTypeS collectDefinitionsS
  pathMethodStep parsePathMethodsS presentVerbs parseSchemaS

/-! ### Utility lemmas -/

theorem except_bind_ok {ε α β : Type} {e : Except ε α} {f : α → Except ε β} {b : β}
    (h : e.bind f = .ok b) : ∃ a, e = .ok a ∧ f a = .ok b := by
  cases e with
  | error err => simp [Except.bind] at h
  | ok a => exact ⟨a, rfl, by simpa [Except.bind] using h⟩

theorem append_ne_empty_left {x y : String} (hx : x ≠ "") : x ++ y ≠ "" := by
  intro h
  apply hx
  have hl := congrArg String.length h
  rw [String.length_append] at hl
  have h0 : x.length = 0 := by
    have := String.length_empty
    omega
  cases x with
  | mk data =>
    cases data with
    | nil => rfl
    | cons c t => simp [String.length] at h0

theorem append_ne_self {x y : String} (hx : x ≠ "") : x ++ y ≠ y := by
  intro h
  apply hx
  have hl := congrArg String.length h
  rw [String.length_append] at hl
  have h0 : x.length = 0 := by omega
  cases x with
  | mk data =>
    cases data with
    | nil => rfl
    | cons c t => simp [String.length] at h0

/-- Substring occurrence at any position. -/
def containsSub (needle : List Char) : List Char → Bool
  | [] => needle.isEmpty
  | c :: t => needle.isPrefixOf (c :: t) || containsSub needle t

/-- Substring occurrence, for reasoning about error-message content. -/
def strContains (hay needle : String) : Bool :=
  containsSub needle.toList hay.toList

/-! ## Claims -/

/-! ### C3 — array-of-primitive resolution -/

/-- The claim's schema node, `{type: array, items: {type: string}}`. -/
def arrayOfStringSchema : Json :=
  .obj [("type", .str "array"), ("items", .obj [("type", .str "string")])]

/-- The inline items model the resolver builds for it under parent name
`n`: typed `string`, with its `dependencies` property deleted, and not
registered anywhere. -/
def arrayItemsModel (loc n : String) : ModelF TGVal :=
  { name := some (n ++ "Items"), tType := TT.schemaT,
    schema := .obj [("type", .str "string")],
    location := some (loc ++ ".items" ++ "." ++ (n ++ "Items")),
    type := some "string", enumv := none, description := none,
    validations := [], extras := [], dependencies := none, fields := [],
    array := false, allOf := none, anyOf := none, oneOf := none }

/-- The model `parseSchemaObject` returns for the claim's node. -/
def arrayOfStringModel (loc n : String) : ModelF TGVal :=
  { name := some n, tType := TT.schemaT, schema := arrayOfStringSchema,
    location := some (loc ++ "." ++ n),
    type := some "string", enumv := none, description := none,
    validations := [], extras := [],
    dependencies := some [.model (arrayItemsModel loc n)], fields := [],
    array := true, allOf := none, anyOf := none, oneOf := none }

/-- **C3, counterexample.** Resolving `{type: array, items: {type: string}}`
from a fresh registry gives `array = true` and `type = "string"` as the
claim says, but the dependencies list is NOT empty: `parseSchemaObject`
pushes the inline items model into it (typegen.ts line 347). -/
theorem c3_array_of_string_counterexample :
    parseSchemaObjectC Reg.init "components.schemas" arrayOfStringSchema
        { name := some "Strings" } [] =
      .ok (.model (arrayOfStringModel "components.schemas" "Strings"),
           [.model (arrayItemsModel "components.schemas" "Strings")]) ∧
    (arrayOfStringModel "components.schemas" "Strings").array = true ∧
    (arrayOfStringModel "components.schemas" "Strings").type = some "string" ∧
    (arrayOfStringModel "components.schemas" "Strings").dependencies ≠ some [] := by
  refine ⟨?_, rfl, rfl, by simp [arrayOfStringModel]⟩
  simp [Bind.bind, Except.bind, Pure.pure, Except.pure, arrayOfStringSchema,
    arrayOfStringModel, arrayItemsModel, SData.required]

/-- **C3, amended.** For every schema node of the form
`{type: array, items: {type: string}}`, resolved under the content-hash
strategy with neither the node nor its items node already content-keyed in
the registry, `parseSchemaObject` returns a model with `array = true` and
`type = "string"` whose dependencies list holds exactly one entry: the
inline items model, which carries no dependencies property and is not
registered as a named model (the resolver core reads the registry but
never writes it, so no separately named Model is created). -/
theorem c3_array_of_string_amended (reg : Reg) (loc n : String)
    (hh : reg.hasher = false)
    (h1 : alookup (stringify arrayOfStringSchema) reg.schemaRefMap = none)
    (h2 : alookup (stringify (Json.obj [("type", Json.str "string")])) reg.schemaRefMap = none) :
    parseSchemaObjectC reg loc arrayOfStringSchema { name := some n } [] =
      .ok (.model (arrayOfStringModel loc n), [.model (arrayItemsModel loc n)]) := by
  simp [arrayOfStringSchema] at h1 h2
  simp [Bind.bind, Except.bind, Pure.pure, Except.pure, arrayOfStringSchema,
    arrayOfStringModel, arrayItemsModel, SData.required, hh, h1, h2]

/-- **C3, witness** for the amended theorem at a fresh registry. -/
theorem c3_array_of_string_amended_witness :
    parseSchemaObjectC Reg.init "components.schemas" arrayOfStringSchema
        { name := some "Tags" } [] =
      .ok (.model (arrayOfStringModel "components.schemas" "Tags"),
           [.model (arrayItemsModel "components.schemas" "Tags")]) :=
  c3_array_of_string_amended Reg.init "components.schemas" "Tags" rfl rfl rfl

/-! ### C8 — the `openapi` version guard -/

/-- **C8.** For every document whose `openapi` field is absent (including
an absent document, or a `null` field) or is a string that does not start
with "3.", `parseSchema` rejects immediately with the version error whose
message names the offending value and the source file. The rejection
happens before `clearData`, `collectDefinitions` or any path walk, so the
call produces no registry state and emits no entities — which the
error-result (carrying neither a registry nor a delivery log) models. -/
theorem c8_version_guard (doc : Option Json) (filename : Option String)
    (h : match Js.getOpt doc "openapi" with
         | some (.str s) => jsStartsWith s "3." = false
         | some .null => True
         | none => True
         | some _ => False) :
    parseSchemaS doc filename =
      .error (.errorObj ("Invalid schema - only 3.x is supported: '" ++
        Js.toStrO (Js.getOpt doc "openapi") ++ "', " ++ Js.jstr filename)) := by
  unfold parseSchemaS
  cases hv : Js.getOpt doc "openapi" with
  | none => simp [hv, Bind.bind, Except.bind, Pure.pure, Except.pure]
  | some v =>
    rw [hv] at h
    cases v <;> simp_all [Bind.bind, Except.bind, Pure.pure, Except.pure]

/-- **C8, witness**: a Swagger 2.0 document with a file name. -/
theorem c8_version_guard_witness :
    parseSchemaS (some (.obj [("openapi", .str "2.0")])) (some "api.json") =
      .error (.errorObj
        ("Invalid schema - only 3.x is supported: '" ++
          Js.toStrO (Js.getOpt (some (.obj [("openapi", .str "2.0")])) "openapi") ++
          "', " ++ Js.jstr (some "api.json"))) :=
  c8_version_guard (some (.obj [("openapi", .str "2.0")])) (some "api.json")
    (show jsStartsWith "2.0" "3." = false by decide)

/-! ### C9 — unresolvable references -/

def c9refNode : Json := .obj [("$ref", .str "#/components/responses/NotFound")]

def c9view : MethodView := { pathName := "/widgets", tags := none, verb := some "get" }

/-- **C9, counterexample.** An unresolvable response reference makes
`parseMethodResponse` throw the fixed string literal
'did not parse response' — not a `MissingReferenceError`, and the message
does not include the dangling reference string — while the same dangling
`$ref` in schema position does not fail at all: `parseReferenceObject`
silently returns a Reference named by the raw ref string. -/
theorem c9_missing_reference_counterexample :
    parseMethodResponseS Reg.init "paths./widgets.get.responses" c9view c9refNode (some 200) =
      .error (.strLit "did not parse response") ∧
    strContains "did not parse response" "#/components/responses/NotFound" = false ∧
    parseReferenceObjectC Reg.init c9refNode =
      .ok (.refv { name := "#/components/responses/NotFound", tType := TT.ref }) := by
  refine ⟨?_, by decide, by simp [c9refNode]⟩
  simp [Bind.bind, Except.bind, Pure.pure, Except.pure, c9refNode, c9view]

/-- **C9, amended.** Whenever a response (or request-body-shaped)
reference cannot be resolved against the registry, `parseMethodResponse`
fails by throwing the fixed string literal 'did not parse response',
which carries no reference string; and a dangling local `$ref` in schema
position does not fail: `parseReferenceObject` returns a fresh `REF`
handle named by the raw reference string. -/
theorem c9_missing_reference_amended (reg : Reg) (loc : String) (mv : MethodView)
    (rs : String) (status : Option Int)
    (hmiss : resolveSchemaType reg rs = none)
    (hlocal : rs.data.head? = some '#') :
    parseMethodResponseS reg loc mv (.obj [("$ref", .str rs)]) status =
      .error (.strLit "did not parse response") ∧
    parseReferenceObjectC reg (.obj [("$ref", .str rs)]) =
      .ok (.refv { name := rs, tType := TT.ref }) := by
  have hnone : alookup rs reg.schemaRefMap = none := by
    revert hmiss
    unfold resolveSchemaType
    cases alookup rs reg.schemaRefMap with
    | none => intro _; rfl
    | some r => intro hmiss; simp at hmiss
  constructor
  · simp [Bind.bind, Except.bind, Pure.pure, Except.pure, hmiss, -resolveSchemaType]
  · obtain ⟨c, t, hct⟩ : ∃ c t, rs.data = c :: t := by
      cases hd : rs.data with
      | nil => rw [hd] at hlocal; simp at hlocal
      | cons c t => exact ⟨c, t, rfl⟩
    rw [hct] at hlocal
    simp at hlocal
    subst hlocal
    simp [parseReferenceObjectC, String.toList, hct, hnone]

/-- **C9, witness** for the amended theorem. -/
theorem c9_missing_reference_amended_witness :
    parseMethodResponseS Reg.init "loc" c9view
        (.obj [("$ref", .str "#/components/responses/NotFound")]) (some 404) =
      .error (.strLit "did not parse response") ∧
    parseReferenceObjectC Reg.init
        (.obj [("$ref", .str "#/components/responses/NotFound")]) =
      .ok (.refv { name := "#/components/responses/NotFound", tType := TT.ref }) :=
  c9_missing_reference_amended Reg.init "loc" c9view
    "#/components/responses/NotFound" (some 404) rfl rfl

/-! ### C4 — multi-shape request bodies -/

def c4fs : List (String × Json) := [("content", .obj [
  ("application/json", .obj [("schema", .obj [("type", .str "string")])]),
  ("text/plain", .obj [("schema", .obj [("type", .str "string")])])])]

def c4view : MethodView := { pathName := "/widgets", tags := none, verb := some "post" }

/-- **C4, counterexample.** An operation request body declaring two
distinct content-shapes parses successfully — no error of any kind — and
is silently turned into two request-body entities, one per content type
(which `parseMethodObject` then stores on `requestBodies`). -/
theorem c4_multi_body_counterexample :
    (match parseMethodRequestBodyS Reg.init "paths./widgets.post.requestBody" c4view
        (.obj c4fs) with
     | .ok (bodies, _) =>
        bodies.length = 2 ∧
        bodies.map (fun b => b.contentType) = ["application/json", "text/plain"]
     | .error _ => False) := by
  simp [Bind.bind, Except.bind, Pure.pure, Except.pure, c4fs, c4view]

theorem requestBodyStep_contentTypes {loc : String} {mv : MethodView} {schemaJ : Json}
    {acc out : List TGBody × Reg} {kv : String × Json}
    (h : requestBodyStep loc mv schemaJ acc kv = .ok out) :
    out.1.map (fun b => b.contentType) = acc.1.map (fun b => b.contentType) ++ [kv.1] := by
  simp only [requestBodyStep, Bind.bind, Pure.pure] at h
  obtain ⟨ps, hps, h⟩ := except_bind_ok h
  obtain ⟨sr, hsr, h⟩ := except_bind_ok h
  obtain ⟨ar, har, h⟩ := except_bind_ok h
  obtain ⟨pr, hpr, h⟩ := except_bind_ok h
  obtain ⟨r, hr, h⟩ := except_bind_ok h
  simp only [Except.pure] at h
  cases h
  simp

theorem requestBodyFold_contentTypes (loc : String) (mv : MethodView) (schemaJ : Json) :
    ∀ (L : List (String × Json)) (acc out : List TGBody × Reg),
    L.foldlM (requestBodyStep loc mv schemaJ) acc = .ok out →
    out.1.map (fun b => b.contentType) =
      acc.1.map (fun b => b.contentType) ++ L.map Prod.fst := by
  intro L
  induction L with
  | nil =>
    intro acc out h
    simp only [List.foldlM_nil, Pure.pure, Except.pure] at h
    cases h
    simp
  | cons kv t ih =>
    intro acc out h
    simp only [List.foldlM_cons, Bind.bind] at h
    obtain ⟨mid, hmid, h⟩ := except_bind_ok h
    rw [ih mid out h, requestBodyStep_contentTypes hmid]
    simp

/-- **C4, amended.** For every operation whose request body is a plain
(non-reference) request-body object, a successful
`parseMethodRequestBody` returns exactly one `TypeGenBody` per declared
content-type entry, in declaration order. More than one content-shape is
not an explicit failure: the condition is silently represented as
multiple request-body entities. -/
theorem c4_multi_body_amended (reg : Reg) (loc : String) (mv : MethodView)
    (fs : List (String × Json)) (bodies : List TGBody) (reg' : Reg)
    (hnoref : alookup "$ref" fs = none)
    (hok : parseMethodRequestBodyS reg loc mv (.obj fs) = .ok (bodies, reg')) :
    bodies.map (fun b => b.contentType) =
      (entriesOrElse (alookup "content" fs)).map Prod.fst := by
  simp only [parseMethodRequestBodyS, Bind.bind, Pure.pure, isReferenceObjectE,
    Js.truthy, Js.getProp, Except.bind, Except.pure, Bool.not_true, hnoref,
    Option.isSome_none, Bool.false_eq_true, if_false, ite_false, Bool.not_false,
    if_true, ite_true] at hok
  have := requestBodyFold_contentTypes loc mv (.obj fs)
    (entriesOrElse (alookup "content" fs)) ([], reg) (bodies, reg') hok
  simpa using this

/-- **C4, witness** for the amended theorem on the two-content-type body. -/
theorem c4_multi_body_amended_witness :
    (match parseMethodRequestBodyS Reg.init "p" c4view (.obj c4fs) with
     | .ok (bodies, _) => bodies.map (fun b => b.contentType) =
         (entriesOrElse (alookup "content" c4fs)).map Prod.fst
     | .error _ => False) := by
  cases hrun : parseMethodRequestBodyS Reg.init "p" c4view (.obj c4fs) with
  | error e =>
    simp [Bind.bind, Except.bind, Pure.pure, Except.pure, c4fs, c4view] at hrun
  | ok pr =>
    exact c4_multi_body_amended Reg.init "p" c4view c4fs pr.1 pr.2 rfl hrun

/-! ### C7 — fixed verb visiting order -/

/-- A successful plain property read agrees with optional chaining. -/
theorem getProp_ok_getOpt {j : Json} {k : String} {v : Option Json}
    (h : Js.getProp (some j) k = .ok v) : Js.getOpt (some j) k = v := by
  cases j <;> simp_all

/-- Attaching request bodies only ever sets `requestBodies`. -/
theorem attachRequestBodies_shape {core1 : TGMethodCore} {reg : Reg} {pn vb : String}
    {mv : MethodView} {s : Json} {out : TGMethodCore × Reg}
    (h : attachRequestBodies core1 reg pn vb mv s = .ok out) :
    ∃ rb, out.1 = { core1 with requestBodies := rb } := by
  simp only [attachRequestBodies, Bind.bind, Except.bind, Pure.pure, Except.pure] at h
  split at h
  · split at h
    · obtain ⟨br, hbr, h⟩ := except_bind_ok h
      obtain ⟨bodies, reg2⟩ := br
      simp only [MHeap.allocBody] at h
      split at h
      · injection h with h'
        subst h'
        exact ⟨_, rfl⟩
      · injection h with h'
        subst h'
        exact ⟨core1.requestBodies, rfl⟩
    · injection h with h'
      subst h'
      exact ⟨core1.requestBodies, rfl⟩
  · injection h with h'
    subst h'
    exact ⟨core1.requestBodies, rfl⟩

/-- Inversion of a successful `parseMethodObject` run: the emitted method
carries the loop's verb and the METHOD tag, the snapshot pushed into the
owning path has null aggregate objects, no `requestBodies`, the circular
placeholder `path`, and shares the four heap array ids with the emitted
method. -/
theorem parseMethodObjectS_ok_shape {reg : Reg} {loc verb : String} {opSchema : Json}
    {path : TGPath} {out : TGMethodH × TGSnap × TGPath × Reg}
    (h : parseMethodObjectS reg loc verb opSchema path = .ok out) :
    out.1.method = verb ∧ out.1.tType = TT.methodT ∧ out.1.pathName = path.name ∧
    out.2.1.method = verb ∧
    out.2.1.pathObject = none ∧ out.2.1.headerObject = none ∧
    out.2.1.queryObject = none ∧ out.2.1.requestBodies = none ∧
    out.2.1.path = "<circular " ++ path.name ++ ">" ∧
    out.1.pathParams = out.2.1.pathParams ∧
    out.1.headerParams = out.2.1.headerParams ∧
    out.1.queryParams = out.2.1.queryParams ∧
    out.1.responses = out.2.1.responses ∧
    out.2.2.1.methods = path.methods ++ [out.2.1] := by
  simp only [parseMethodObjectS, Bind.bind, Except.bind, Pure.pure, Except.pure,
    MHeap.allocRef, MHeap.allocResp] at h
  obtain ⟨pE, hpE, h⟩ := except_bind_ok h
  obtain ⟨rg1, hrg1, h⟩ := except_bind_ok h
  obtain ⟨pr1, hpr1, h⟩ := except_bind_ok h
  obtain ⟨po, rg2⟩ := pr1
  obtain ⟨pr2, hpr2, h⟩ := except_bind_ok h
  obtain ⟨ho, rg3⟩ := pr2
  obtain ⟨pr3, hpr3, h⟩ := except_bind_ok h
  obtain ⟨qo, rg4⟩ := pr3
  obtain ⟨respV, hrespV, h⟩ := except_bind_ok h
  obtain ⟨rg5, hrg5, h⟩ := except_bind_ok h
  obtain ⟨cr, hcr, h⟩ := except_bind_ok h
  obtain ⟨rb, hrb⟩ := attachRequestBodies_shape hcr
  injection h with h'
  subst h'
  simp [hrb]

/-- A successful single-category `emit` appends exactly that delivery to
the log. -/
theorem emitOne_single_log {em em2 : Emit} {cat : String} {e : Entity}
    (h : emitOne em [cat] e = some em2) : em2.log = em.log ++ [(cat, e)] := by
  simp only [emitOne, List.foldlM] at h
  split at h <;> simp_all [Bind.bind, Option.bind, Pure.pure] <;> exact h ▸ rfl

/-- One verb-loop step: a falsy verb entry leaves the log alone; a truthy
one appends exactly one METHOD delivery whose entity's `method` is that
verb. -/
theorem pathMethodStep_log {pathName : String} {pathDef : Json}
    {acc out : Reg × Emit × TGPath} {m : String}
    (h : pathMethodStep pathName pathDef acc m = .ok out) :
    (Js.truthyO (Js.getOpt (some pathDef) m) = false ∧ out.2.1.log = acc.2.1.log) ∨
    (Js.truthyO (Js.getOpt (some pathDef) m) = true ∧
      ∃ op : TGMethodH, op.method = m ∧
        out.2.1.log = acc.2.1.log ++ [(TT.methodT, Entity.methodE op)]) := by
  obtain ⟨reg, em, pp⟩ := acc
  simp only [pathMethodStep, Bind.bind, Except.bind, Pure.pure, Except.pure] at h
  obtain ⟨mv, hmv, h⟩ := except_bind_ok h
  have heq := getProp_ok_getOpt hmv
  split at h
  case isTrue hc =>
    injection h with h'
    subst h'
    left
    constructor
    · rw [heq]
      simpa using hc
    · rfl
  case isFalse hc =>
    cases mv with
    | none => exact absurd (by decide) hc
    | some opSchema =>
      have htr : Js.truthyO (some opSchema) = true := by
        cases hb : Js.truthyO (some opSchema) with
        | false => rw [hb] at hc; exact absurd (by decide) hc
        | true => rfl
      obtain ⟨r4, hr4, h⟩ := except_bind_ok h
      obtain ⟨opItem, snapX, pp', reg2⟩ := r4
      split at h
      case _ em2 heq2 =>
        injection h with h'
        subst h'
        right
        refine ⟨by rw [heq]; exact htr, opItem, (parseMethodObjectS_ok_shape hr4).1, ?_⟩
        simpa using emitOne_single_log heq2
      case _ heq2 =>
        exact absurd h (by simp)

/-- The verb-loop fold appends one METHOD delivery per truthy verb, in the
order of the verb list it folds over. -/
theorem pathMethods_fold_log (pathName : String) (pathDef : Json) :
    ∀ (L : List String) (acc out : Reg × Emit × TGPath),
      L.foldlM (pathMethodStep pathName pathDef) acc = .ok out →
      ∃ dl : List (String × Entity),
        out.2.1.log = acc.2.1.log ++ dl ∧
        dl.map Prod.fst = (L.filter (fun m =>
          Js.truthyO (Js.getOpt (some pathDef) m))).map (fun _ => TT.methodT) ∧
        dl.filterMap (fun kv => match kv.2 with
          | Entity.methodE mm => some mm.method
          | _ => none) =
          L.filter (fun m => Js.truthyO (Js.getOpt (some pathDef) m))
  | [], acc, out, h => by
    simp only [List.foldlM, Pure.pure, Except.pure] at h
    injection h with h'
    subst h'
    exact ⟨[], by simp, by simp, by simp⟩
  | m :: L, acc, out, h => by
    simp only [List.foldlM, Bind.bind, Except.bind] at h
    obtain ⟨mid, hmid, h⟩ := except_bind_ok h
    obtain ⟨dl', hlog', hfst', hverbs'⟩ :=
      pathMethods_fold_log pathName pathDef L mid out h
    rcases pathMethodStep_log hmid with ⟨hf, hlog0⟩ | ⟨ht, op, hop, hlog0⟩
    · refine ⟨dl', by rw [hlog', hlog0], ?_, ?_⟩
      · rw [List.filter_cons_of_neg (by simp only [hf]; decide)]
        exact hfst'
      · rw [List.filter_cons_of_neg (by simp only [hf]; decide)]
        exact hverbs'
    · refine ⟨(TT.methodT, Entity.methodE op) :: dl', ?_, ?_, ?_⟩
      · rw [hlog', hlog0, List.append_assoc]
        rfl
      · rw [List.filter_cons_of_pos (by simp only [ht])]
        simp only [List.map_cons, hfst']
      · rw [List.filter_cons_of_pos (by simp only [ht])]
        simp only [List.filterMap_cons, hverbs', hop]

/-- **C7.** For every path object, a successful run of the verb loop
visits the verbs present on the path in the fixed order of `methodsList`
(get, put, post, delete, options, head, patch, trace): the METHOD
deliveries it appends to the log are exactly the present verbs' method
entities in that order; which verbs are visited (`presentVerbs`) depends
only on the per-verb lookups on the path object — never on the source
map's key order — and is always a subsequence of the fixed order. -/
theorem c7_fixed_verb_order {reg : Reg} {em : Emit} {pathName : String} {pathDef : Json}
    {pp : TGPath} {out : Reg × Emit × TGPath}
    (hok : parsePathMethodsS reg em pathName pathDef pp = .ok out) :
    (∃ dl : List (String × Entity),
      out.2.1.log = em.log ++ dl ∧
      dl.map Prod.fst = (presentVerbs pathDef).map (fun _ => TT.methodT) ∧
      dl.filterMap (fun kv => match kv.2 with
        | Entity.methodE mm => some mm.method
        | _ => none) = presentVerbs pathDef) ∧
    (∀ d2 : Json, (∀ m, m ∈ methodsList →
        Js.getOpt (some pathDef) m = Js.getOpt (some d2) m) →
      presentVerbs pathDef = presentVerbs d2) ∧
    (presentVerbs pathDef).Sublist methodsList := by
  refine ⟨?_, ?_, ?_⟩
  · have hfold := pathMethods_fold_log pathName pathDef methodsList (reg, em, pp) out hok
    simpa only [presentVerbs] using hfold
  · intro d2 hsame
    simp only [presentVerbs]
    exact List.filter_congr (fun m hm => by simp only [hsame m hm])
  · exact List.filter_sublist _

/-- The C7 witness path object: `post` declared before `get`. -/
def c7pathDef : Json := .obj [("post", .obj []), ("get", .obj [])]

set_option maxHeartbeats 2000000 in
/-- **C7, witness**: on a path object declaring `post` before `get`, the
walk succeeds and the two METHOD deliveries carry the fixed verb order
`get`, `post`, the reverse of the source order. -/
theorem c7_fixed_verb_order_witness :
    presentVerbs c7pathDef = ["get", "post"] ∧
    ∃ out : Reg × Emit × TGPath,
      parsePathMethodsS Reg.init Emit.init "/w" c7pathDef
        (parsePathObject "/w" c7pathDef) = .ok out ∧
      ∃ dl : List (String × Entity),
        out.2.1.log = Emit.init.log ++ dl ∧
        dl.map Prod.fst = (presentVerbs c7pathDef).map (fun _ => TT.methodT) ∧
        dl.filterMap (fun kv => match kv.2 with
          | Entity.methodE mm => some mm.method
          | _ => none) = presentVerbs c7pathDef := by
  refine ⟨by decide, ?_⟩
  cases hrun : parsePathMethodsS Reg.init Emit.init "/w" c7pathDef
      (parsePathObject "/w" c7pathDef) with
  | error e =>
    simp [Bind.bind, Except.bind, Pure.pure, Except.pure, c7pathDef] at hrun
  | ok out =>
    exact ⟨out, rfl, (c7_fixed_verb_order hrun).1⟩

/-! ### C10 — path snapshots are shallow copies taken early -/

/-- **C10.** Whenever `parseMethodObject` succeeds, the entry it pushed
into the owning path's `methods` list is the spread-copied snapshot taken
before parameters, aggregates and bodies were attached: its `pathObject`,
`headerObject` and `queryObject` are null, it carries no `requestBodies`
field, its `path` is the circular placeholder string — even though the
separately returned Method entity may have those populated — while the
four shared-array fields (`pathParams`, `headerParams`, `queryParams`,
`responses`) hold the same heap array ids as the Method entity, so reads
through them see all later additions. -/
theorem c10_snapshot_shallow {reg : Reg} {loc verb : String} {opSchema : Json}
    {path : TGPath} {op : TGMethodH} {snap : TGSnap} {path' : TGPath} {reg' : Reg}
    (h : parseMethodObjectS reg loc verb opSchema path = .ok (op, snap, path', reg')) :
    path'.methods = path.methods ++ [snap] ∧
    snap.pathObject = none ∧ snap.headerObject = none ∧ snap.queryObject = none ∧
    snap.requestBodies = none ∧
    snap.path = "<circular " ++ path.name ++ ">" ∧
    snap.pathParams = op.pathParams ∧ snap.headerParams = op.headerParams ∧
    snap.queryParams = op.queryParams ∧ snap.responses = op.responses := by
  obtain ⟨h1, h2, h3, h4, h5, h6, h7, h8, h9, h10, h11, h12, h13, h14⟩ :=
    parseMethodObjectS_ok_shape h
  exact ⟨h14, h5, h6, h7, h8, h9, h10.symm, h11.symm, h12.symm, h13.symm⟩

/-- The C10 witness operation: no parameters, one JSON request body. -/
def c10op : Json := .obj [("requestBody", .obj [("content", .obj [
  ("application/json", .obj [("schema", .obj [("type", .str "string")])])])])]

set_option maxHeartbeats 2000000 in
/-- **C10, witness**: parsing a post operation with one request body
succeeds; the snapshot pushed into the path has null aggregates, no
`requestBodies` and the placeholder `path`, while the emitted Method
entity's `requestBodies` is populated; the `responses` array id is
shared. -/
theorem c10_snapshot_shallow_witness :
    (match parseMethodObjectS Reg.init "paths./w.post" "post" c10op
        (parsePathObject "/w" (.obj [])) with
     | .ok (op, snap, path', _) =>
       path'.methods = (parsePathObject "/w" (.obj [])).methods ++ [snap] ∧
       snap.pathObject = none ∧ snap.headerObject = none ∧ snap.queryObject = none ∧
       snap.requestBodies = none ∧ snap.path = "<circular /w>" ∧
       snap.responses = op.responses ∧ op.requestBodies.isSome = true
     | .error _ => False) := by
  cases hrun : parseMethodObjectS Reg.init "paths./w.post" "post" c10op
      (parsePathObject "/w" (.obj [])) with
  | error e =>
    simp [Bind.bind, Except.bind, Pure.pure, Except.pure, c10op] at hrun
  | ok pr =>
    obtain ⟨op, snap, path', reg'⟩ := pr
    obtain ⟨hm, hpo, hho, hqo, hrb, hpath, hpp, hhp, hqp, hresp⟩ :=
      c10_snapshot_shallow hrun
    refine ⟨hm, hpo, hho, hqo, hrb, by rw [hpath]; rfl, hresp, ?_⟩
    simp [Bind.bind, Except.bind, Pure.pure, Except.pure, c10op] at hrun
    obtain ⟨h1, h2, h3, h4⟩ := hrun
    rw [← h1]
    rfl

/-! ### C1 — anonymous structural deduplication -/

/-- The canonical reference `assertRef` mints for a parsed model. -/
def mintedRef (m : ModelF TGVal) : TypeGenRef :=
  { name := Js.jstr m.name, tType := TT.ref }

/-- The model `assertRef` stores: the parse result with the
validation/extras bags of its raw node merged in. -/
def storedModel (m : ModelF TGVal)
    (ve : List (String × Json) × List (String × Json)) : ModelF TGVal :=
  { m with
      validations := mergeA m.validations ve.1,
      extras := mergeA m.extras (ve.2.map (fun kv => (kv.1, TGExtra.json kv.2))) }

/-- The registry after `assertRef` first registers an anonymous schema
`s` parsed as `m` under the content-hash strategy: the ref map gains the
content key `stringify s` and the name key, both pointing at the minted
reference, and the content map stores the merged model under the name. -/
def regAfterFirst (reg : Reg) (s : Json) (m : ModelF TGVal)
    (ve : List (String × Json) × List (String × Json)) : Reg :=
  { reg with
      schemaRefMap := aset (stringify s) (mintedRef m)
        (aset (Js.jstr m.name) (mintedRef m) reg.schemaRefMap),
      refContentMap := aset (Js.jstr m.name) (storedModel m ve) reg.refContentMap }

/-- **C1.** Under the content-hash strategy (no custom hasher installed),
when a byte-identical anonymous object schema occurs at two locations and
its serialized content is not yet keyed in the registry, the first
occurrence's `assertRef` registers it and resolves to the minted canonical
reference and the one stored model; re-resolving the identical literal at
the second location is a content-key dedup hit returning that same
reference, and asserting it again returns the same reference and the same
shared model with the registry unchanged. -/
theorem c1_anonymous_dedup (reg : Reg) (loc1 loc2 : String) (fs : List (String × Json))
    (m : ModelF TGVal) (d1 : List TGVal) (data1 data2 : SData) (name1 name2 : Option String)
    (ve : List (String × Json) × List (String × Json))
    (hhash : reg.hasher = false)
    (hnoref : alookup "$ref" fs = none)
    (hmiss : alookup (stringify (.obj fs)) reg.schemaRefMap = none)
    (_hok1 : parseSchemaObjectC reg loc1 (.obj fs) data1 [] = .ok (.model m, d1))
    (hms : m.schema = .obj fs)
    (htype : m.tType = TT.schemaT)
    (hve : getSchemaValidations (some (.obj fs)) = .ok ve)
    (hne : stringify (.obj fs) ≠ Js.jstr m.name) :
    assertRefS reg (some (.obj fs)) (.model m) name1 =
      .ok (some (some (mintedRef m), some (storedModel m ve)),
           regAfterFirst reg (.obj fs) m ve) ∧
    parseSchemaObjectC (regAfterFirst reg (.obj fs) m ve) loc2 (.obj fs) data2 [] =
      .ok (.refv (mintedRef m), []) ∧
    assertRefS (regAfterFirst reg (.obj fs) m ve) (some (.obj fs)) (.refv (mintedRef m)) name2 =
      .ok (some (some (mintedRef m), some (storedModel m ve)),
           regAfterFirst reg (.obj fs) m ve) := by
  obtain ⟨v1, v2⟩ := ve
  simp at hmiss hne hve
  obtain ⟨hv1, hv2⟩ := hve
  refine ⟨?_, ?_, ?_⟩
  · simp [assertRefS, Bind.bind, Except.bind, Pure.pure, Except.pure, htype,
      hnoref, hhash, hms, hv1, hv2, hmiss, hne, regAfterFirst, storedModel,
      mintedRef, alookup_aset_self, alookup_aset_ne]
  · simp [Bind.bind, Except.bind, Pure.pure, Except.pure, hhash, hne, hv1, hv2,
      regAfterFirst, storedModel, mintedRef, alookup_aset_self, alookup_aset_ne]
  · simp [assertRefS, Bind.bind, Except.bind, Pure.pure, Except.pure, hhash, hne,
      hv1, hv2, regAfterFirst, storedModel, mintedRef, alookup_aset_self,
      alookup_aset_ne]

/-- The C1 witness schema, an anonymous `{type: string}` literal. -/
def c1schema : Json := .obj [("type", .str "string")]

/-- The model the resolver builds for the first occurrence. -/
def c1model : ModelF TGVal :=
  { name := some "N1", tType := TT.schemaT, schema := c1schema,
    location := some ("paths./a.get.parameters" ++ "." ++ "N1"),
    type := some "string", enumv := none, description := none,
    validations := [], extras := [], dependencies := some [], fields := [],
    array := false, allOf := none, anyOf := none, oneOf := none }

/-- **C1, witness**: the anonymous `{type: string}` literal parsed at one
location and registered, then re-resolved at a second location: both
yield the same minted reference to the one stored model, and the second
assertion leaves the registry unchanged. -/
theorem c1_anonymous_dedup_witness :
    assertRefS Reg.init (some c1schema) (.model c1model) none =
      .ok (some (some (mintedRef c1model), some (storedModel c1model ([], []))),
           regAfterFirst Reg.init c1schema c1model ([], [])) ∧
    parseSchemaObjectC (regAfterFirst Reg.init c1schema c1model ([], []))
        "paths./b.get.parameters" c1schema { name := some "N2" } [] =
      .ok (.refv (mintedRef c1model), []) ∧
    assertRefS (regAfterFirst Reg.init c1schema c1model ([], [])) (some c1schema)
      (.refv (mintedRef c1model)) none =
      .ok (some (some (mintedRef c1model), some (storedModel c1model ([], []))),
           regAfterFirst Reg.init c1schema c1model ([], [])) := by
  have hok1 : parseSchemaObjectC Reg.init "paths./a.get.parameters" c1schema
      { name := some "N1" } [] = .ok (.model c1model, []) := by
    simp [Bind.bind, Except.bind, Pure.pure, Except.pure, c1schema, c1model,
      SData.required]
  exact c1_anonymous_dedup Reg.init "paths./a.get.parameters" "paths./b.get.parameters"
    [("type", .str "string")] c1model [] { name := some "N1" } { name := some "N2" }
    none none ([], []) rfl rfl rfl hok1 rfl rfl (by rfl) (by decide)

/-! ### C6 — reference cycles terminate; registered names resolve immediately -/

/-- The C6 cyclic document: component schema `A` has a property
referencing `B`, and `B` has a property referencing `A`. -/
def c6doc : Json := .obj [("components", .obj [("schemas", .obj [
  ("A", .obj [("type", .str "object"),
    ("properties", .obj [("b", .obj [("$ref", .str "#/components/schemas/B")])])]),
  ("B", .obj [("type", .str "object"),
    ("properties", .obj [("a", .obj [("$ref", .str "#/components/schemas/A")])])])])])]

set_option maxHeartbeats 2000000 in
/-- **C6.** Resolving a local `$ref` whose string is registered in the
Registry returns the existing Reference immediately, with no recursion
into the referenced schema (`parseReferenceObject` is a single map
lookup); and collecting the definitions of the `A`↔`B` `$ref` cycle
terminates (the embedding is total by construction, mirroring the
source's recursion on sub-nodes only, never through references), with
both names registered afterwards and re-resolution of the cycle's `$ref`
an immediate hit. -/
theorem c6_ref_cycle :
    (∀ (reg : Reg) (r : String) (ref : TypeGenRef),
      r.data.head? = some '#' →
      alookup r reg.schemaRefMap = some ref →
      parseReferenceObjectC reg (.obj [("$ref", .str r)]) = .ok (.refv ref)) ∧
    (∃ reg' : Reg, collectDefinitionsS Reg.init c6doc = .ok reg' ∧
      alookup "#/components/schemas/A" reg'.schemaRefMap =
        some { name := "A", tType := TT.ref } ∧
      alookup "#/components/schemas/B" reg'.schemaRefMap =
        some { name := "B", tType := TT.ref } ∧
      parseReferenceObjectC reg' (.obj [("$ref", .str "#/components/schemas/A")]) =
        .ok (.refv { name := "A", tType := TT.ref })) := by
  refine ⟨?_, ?_⟩
  · intro reg r ref hfirst hreg
    cases hl : r.data with
    | nil => rw [hl] at hfirst; simp at hfirst
    | cons c t =>
      rw [hl] at hfirst
      simp at hfirst
      subst hfirst
      simp [parseReferenceObjectC, String.toList, hl, hreg]
  · cases hrun : collectDefinitionsS Reg.init c6doc with
    | error e =>
      simp [Bind.bind, Except.bind, Pure.pure, Except.pure, c6doc] at hrun
    | ok reg' =>
      refine ⟨reg', rfl, ?_⟩
      simp [Bind.bind, Except.bind, Pure.pure, Except.pure, c6doc] at hrun
      subst hrun
      refine ⟨by decide, by decide, by simp [parseReferenceObjectC, String.toList]⟩

/-- **C6, witness**: a registered local `$ref` string resolves to the
existing Reference in one lookup. -/
theorem c6_ref_cycle_witness :
    parseReferenceObjectC
        { Reg.init with schemaRefMap :=
            [("#/components/schemas/A", { name := "A", tType := TT.ref })] }
        (.obj [("$ref", .str "#/components/schemas/A")]) =
      .ok (.refv { name := "A", tType := TT.ref }) :=
  c6_ref_cycle.1 _ "#/components/schemas/A" _ (by decide) rfl

/-! ### C2 — named components never merge -/

/-- A component's `#/components/<section>/<name>` assertion key. -/
def compKey (sec n : String) : String := "#/components/" ++ sec ++ "/" ++ n

set_option maxHeartbeats 4000000 in
/-- **C2.** Collecting the definitions of a document that declares two
top-level component schemas `A` and `B` with byte-identical bodies
registers one Model per declared name: the content map holds a model
named `A` under key `A` and a distinct model named `B` under key `B`,
and the two component path keys resolve to the two distinct name-bearing
references — the identical content never merges the named entries,
because the hasher `collectDefinitions` installs keys assertions by
declared name, not by serialized content. -/
theorem c2_named_components_no_merge (A B : String) (sfs : List (String × Json))
    (mA mB : ModelF TGVal) (dA dB : List TGVal)
    (ve : List (String × Json) × List (String × Json))
    (ty : String)
    (hAB : A ≠ B)
    (hd1 : alookup "$ref" sfs = none)
    (hty : alookup "type" sfs = some (.str ty))
    (hty1 : ty ≠ "http") (hty2 : ty ≠ "apiKey")
    (hty3 : ty ≠ "oauth2") (hty4 : ty ≠ "openIdConnect")
    (hnm : alookup "name" sfs = none)
    (hA : parseSchemaObjectC { Reg.init with hasher := true } "components.schemas"
        (.obj sfs) { name := some A } [] = .ok (.model mA, dA))
    (hB : parseSchemaObjectC { Reg.init with hasher := true } "components.schemas"
        (.obj sfs) { name := some B } [] = .ok (.model mB, dB))
    (hnA : mA.name = some A) (htA : mA.tType = TT.schemaT) (hmA : mA.schema = .obj sfs)
    (hnB : mB.name = some B) (htB : mB.tType = TT.schemaT) (hmB : mB.schema = .obj sfs)
    (hval : getSchemaValidations (some (.obj sfs)) = .ok ve)
    (hsA : stringify (.obj sfs) ≠ A)
    (hBs : B ≠ stringify (.obj sfs))
    (hsPA : stringify (.obj sfs) ≠ compKey "schemas" A)
    (hPAA : compKey "schemas" A ≠ A)
    (hPBB : compKey "schemas" B ≠ B)
    (hPBA : compKey "schemas" B ≠ compKey "schemas" A)
    (hpBA : compKey "schemas" B ≠ A)
    (hBPA : B ≠ compKey "schemas" A)
    (hPBs : compKey "schemas" B ≠ stringify (.obj sfs)) :
    ∃ reg' : Reg,
      collectDefinitionsS Reg.init
        (.obj [("components", .obj [("schemas", .obj [(A, .obj sfs), (B, .obj sfs)])])]) =
        .ok reg' ∧
      alookup A reg'.refContentMap = some (storedModel mA ve) ∧
      alookup B reg'.refContentMap = some (storedModel mB ve) ∧
      (storedModel mA ve).name = some A ∧
      (storedModel mB ve).name = some B ∧
      alookup (compKey "schemas" A) reg'.schemaRefMap =
        some { name := A, tType := TT.ref } ∧
      alookup (compKey "schemas" B) reg'.schemaRefMap =
        some { name := B, tType := TT.ref } := by
  obtain ⟨v1, v2⟩ := ve
  have hBA : B ≠ A := hAB.symm
  have h0A : ("#/components/schemas/" : String) ++ A ≠ "" :=
    append_ne_empty_left (by decide)
  have h0B : ("#/components/schemas/" : String) ++ B ≠ "" :=
    append_ne_empty_left (by decide)
  have hsne : stringify (.obj sfs) ≠ "" := by
    have h := @append_ne_empty_left "\x7b" (stringifyFields sfs ++ "\x7d") (by decide)
    simpa [stringify] using h
  simp [compKey] at hsPA hPAA hPBB hPBA hpBA hBPA hPBs
  simp only [Reg.init, MHeap.empty] at hA hB
  simp at hval hsne hsA hBs
  obtain ⟨hv1, hv2⟩ := hval
  have hPAA2 := Ne.symm hPAA
  have hPBB2 := Ne.symm hPBB
  have hPBA2 := Ne.symm hPBA
  have hpBA2 := Ne.symm hpBA
  have hBPA2 := Ne.symm hBPA
  have hsA2 := Ne.symm hsA
  have hBs2 := Ne.symm hBs
  have hsPA2 := Ne.symm hsPA
  have hPBs2 := Ne.symm hPBs
  cases hrun : collectDefinitionsS Reg.init
      (.obj [("components", .obj [("schemas", .obj [(A, .obj sfs), (B, .obj sfs)])])]) with
  | error e =>
    simp [Bind.bind, Except.bind, Pure.pure, Except.pure, hd1, hty, hty1, hty2,
      hty3, hty4, hnm, hA, hB, hnA, htA, hmA, hnB, htB, hmB, hv1, hv2, hsne, hsA,
      hBs, hsPA, hPAA, hPBB, hPBA, hpBA, hBPA, hPBs, hBA, hAB, h0A, h0B,
      hPAA2, hPBB2, hPBA2, hpBA2, hBPA2, hsA2, hBs2, hsPA2, hPBs2,
      -parseSchemaObjectC] at hrun
  | ok reg' =>
    refine ⟨reg', rfl, ?_⟩
    simp [Bind.bind, Except.bind, Pure.pure, Except.pure, hd1, hty, hty1, hty2,
      hty3, hty4, hnm, hA, hB, hnA, htA, hmA, hnB, htB, hmB, hv1, hv2, hsne, hsA,
      hBs, hsPA, hPAA, hPBB, hPBA, hpBA, hBPA, hPBs, hBA, hAB, h0A, h0B,
      hPAA2, hPBB2, hPBA2, hpBA2, hBPA2, hsA2, hBs2, hsPA2, hPBs2,
      -parseSchemaObjectC] at hrun
    subst hrun
    refine ⟨?_, ?_, ?_, ?_, ?_, ?_⟩ <;>
      simp [compKey, storedModel, hnA, hnB, htA, hmA, htB, hmB, hv1, hv2, hsA,
        hBs, hsPA, hPAA, hPBB, hPBA, hpBA, hBPA, hPBs, hBA, hAB, hPAA2, hPBB2,
        hPBA2, hpBA2, hBPA2, hsA2, hBs2, hsPA2, hPBs2]

/-- The model the resolver builds for a named `{type: string}` component. -/
def c2model (n : String) : ModelF TGVal :=
  { name := some n, tType := TT.schemaT, schema := .obj [("type", .str "string")],
    location := some ("components.schemas" ++ "." ++ n),
    type := some "string", enumv := none, description := none,
    validations := [], extras := [], dependencies := some [], fields := [],
    array := false, allOf := none, anyOf := none, oneOf := none }

/-- **C2, witness**: two byte-identical `{type: string}` components named
`Foo` and `Bar` register as two distinct name-keyed models. -/
theorem c2_named_components_no_merge_witness :
    ∃ reg' : Reg,
      collectDefinitionsS Reg.init
        (.obj [("components", .obj [("schemas", .obj
          [("Foo", .obj [("type", .str "string")]),
           ("Bar", .obj [("type", .str "string")])])])]) = .ok reg' ∧
      alookup "Foo" reg'.refContentMap = some (storedModel (c2model "Foo") ([], [])) ∧
      alookup "Bar" reg'.refContentMap = some (storedModel (c2model "Bar") ([], [])) ∧
      (storedModel (c2model "Foo") ([], [])).name = some "Foo" ∧
      (storedModel (c2model "Bar") ([], [])).name = some "Bar" ∧
      alookup (compKey "schemas" "Foo") reg'.schemaRefMap =
        some { name := "Foo", tType := TT.ref } ∧
      alookup (compKey "schemas" "Bar") reg'.schemaRefMap =
        some { name := "Bar", tType := TT.ref } := by
  have hA : parseSchemaObjectC { Reg.init with hasher := true } "components.schemas"
      (.obj [("type", .str "string")]) { name := some "Foo" } [] =
      .ok (.model (c2model "Foo"), []) := by
    simp [Bind.bind, Except.bind, Pure.pure, Except.pure, c2model, SData.required]
  have hB : parseSchemaObjectC { Reg.init with hasher := true } "components.schemas"
      (.obj [("type", .str "string")]) { name := some "Bar" } [] =
      .ok (.model (c2model "Bar"), []) := by
    simp [Bind.bind, Except.bind, Pure.pure, Except.pure, c2model, SData.required]
  exact c2_named_components_no_merge "Foo" "Bar" [("type", .str "string")]
    (c2model "Foo") (c2model "Bar") [] [] ([], []) "string"
    (by decide) rfl rfl (by decide) (by decide) (by decide) (by decide) rfl
    hA hB rfl rfl rfl rfl rfl rfl rfl
    (by decide) (by decide) (by decide) (by decide) (by decide) (by decide)
    (by decide) (by decide) (by decide)

/-! ### C5 — replay delivers the same entities per category -/

/-- Appending-fold form of a delivery walk. -/
theorem foldl_append {α β : Type} (f : α → List β) :
    ∀ (l : List α) (acc : List β),
      l.foldl (fun a x => a ++ f x) acc = acc ++ (l.map f).flatten
  | [], acc => by simp
  | x :: t, acc => by
    simp [foldl_append f t, List.append_assoc]

/-- One step of `loadParsed`'s delivery walk. -/
theorem loadParsedDeliveries_cons (k : String) (slot : EmitSlot)
    (t : List (String × EmitSlot)) :
    loadParsedDeliveries ((k, slot) :: t) =
      (if (k != "referenceMap") && (k != "schemaRefMap") then
        (match slot with
         | .entities l => l.map (fun e => (k, e))
         | .refMapMarker => [])
       else []) ++ loadParsedDeliveries t := by
  simp only [loadParsedDeliveries, List.filter_cons]
  split <;> rename_i hsp <;>
    simp [foldl_append, List.foldl_cons, hsp]

/-- A category with no slot contributes no replay deliveries. -/
theorem filter_loadParsed_not_mem (cat : String) :
    ∀ ps : List (String × EmitSlot), cat ∉ ps.map Prod.fst →
      (loadParsedDeliveries ps).filter (fun kv => kv.1 = cat) = []
  | [], _ => by simp [loadParsedDeliveries]
  | (k, slot) :: t, h => by
    simp only [List.map_cons, List.mem_cons, not_or] at h
    obtain ⟨hk, ht⟩ := h
    have hk' : ¬(k = cat) := fun hc => hk hc.symm
    rw [loadParsedDeliveries_cons, List.filter_append,
      filter_loadParsed_not_mem cat t ht]
    cases slot <;> split <;> simp [hk']

/-- With key-unique slots, the replay deliveries of one category are
exactly that category's slot, each entity re-keyed by the category. -/
theorem filter_loadParsed (cat : String) (hc1 : cat ≠ "referenceMap")
    (hc2 : cat ≠ "schemaRefMap") :
    ∀ ps : List (String × EmitSlot), (ps.map Prod.fst).Nodup →
      (loadParsedDeliveries ps).filter (fun kv => kv.1 = cat) =
        (match alookup cat ps with
         | some (.entities es) => es.map (fun e => (cat, e))
         | some .refMapMarker => []
         | none => [])
  | [], _ => by simp [loadParsedDeliveries, alookup]
  | (k, slot) :: t, hnd => by
    simp only [List.map_cons, List.nodup_cons] at hnd
    obtain ⟨hkt, hnd'⟩ := hnd
    rw [loadParsedDeliveries_cons, List.filter_append]
    by_cases hk : k = cat
    · subst hk
      rw [filter_loadParsed_not_mem k t hkt]
      have hpred : ((k != "referenceMap") && (k != "schemaRefMap")) = true := by
        simp [hc1, hc2]
      rw [if_pos hpred]
      cases slot <;> simp [alookup]
    · have hk' : ¬(cat = k) := fun hc => hk hc.symm
      rw [filter_loadParsed cat hc1 hc2 t hnd']
      cases slot <;> split <;> simp [alookup, hk, hk']

/-- Re-keying the entries of one category's filtered log is the identity. -/
theorem filter_fst_map_self (cat : String) :
    ∀ l : List (String × Entity),
      ((l.filter (fun kv => kv.1 = cat)).map Prod.snd).map (fun e => (cat, e)) =
        l.filter (fun kv => kv.1 = cat)
  | [] => rfl
  | (k, e) :: t => by
    by_cases h : k = cat
    · subst h
      rw [List.filter_cons_of_pos (by simp), List.map_cons, List.map_cons,
        filter_fst_map_self k t]
    · rw [List.filter_cons_of_neg (by simp [h]), filter_fst_map_self cat t]

/-- Keys of `aset` output come from the new key or the old keys. -/
theorem mem_fst_aset {κ α : Type} [DecidableEq κ] (k k₂ : κ) (v : α) :
    ∀ l : List (κ × α), k₂ ∈ (aset k v l).map Prod.fst → k₂ = k ∨ k₂ ∈ l.map Prod.fst
  | [] => by simp [aset]
  | (k', v') :: t => by
    by_cases h : k' = k
    · intro hmem
      simp only [aset, if_pos h, List.map_cons, List.mem_cons] at hmem
      rcases hmem with h1 | h1
      · exact Or.inl h1
      · exact Or.inr (by simp [h1])
    · intro hmem
      simp only [aset, if_neg h, List.map_cons, List.mem_cons] at hmem
      rcases hmem with h1 | h1
      · exact Or.inr (by simp [h1])
      · rcases mem_fst_aset k k₂ v t h1 with h2 | h2
        · exact Or.inl h2
        · exact Or.inr (by simp [h2])

/-- `aset` preserves key uniqueness. -/
theorem aset_fst_nodup {κ α : Type} [DecidableEq κ] (k : κ) (v : α) :
    ∀ l : List (κ × α), (l.map Prod.fst).Nodup → ((aset k v l).map Prod.fst).Nodup
  | [], _ => by simp [aset]
  | (k', v') :: t, hnd => by
    simp only [List.map_cons, List.nodup_cons] at hnd
    obtain ⟨h1, h2⟩ := hnd
    by_cases h : k' = k
    · subst h
      have ha : aset k' v ((k', v') :: t) = (k', v) :: t := by simp [aset]
      rw [ha, List.map_cons]
      exact List.nodup_cons.mpr ⟨h1, h2⟩
    · simp only [aset, if_neg h, List.map_cons, List.nodup_cons]
      constructor
      · intro hmem
        rcases mem_fst_aset k k' v t hmem with hh | hh
        · exact h hh
        · exact h1 hh
      · exact aset_fst_nodup k v t h2

/-- The emitter invariant: slot keys are unique, and each category's slot
holds exactly the entities its log entries delivered, in order (the
marker slot and unknown categories have no deliveries). -/
def EmInv (em : Emit) : Prop :=
  (em.parsedSchemas.map Prod.fst).Nodup ∧
  ∀ cat : String,
    match alookup cat em.parsedSchemas with
    | some (.entities es) => es = (em.log.filter (fun kv => kv.1 = cat)).map Prod.snd
    | some .refMapMarker => em.log.filter (fun kv => kv.1 = cat) = []
    | none => em.log.filter (fun kv => kv.1 = cat) = []

/-- `clearData`'s emitter state satisfies the invariant. -/
theorem emInv_init : EmInv Emit.init := by
  constructor
  · simp [Emit.init]
  · intro cat
    by_cases h : "referenceMap" = cat <;> simp [Emit.init, alookup, h]

/-- Pushing one entity onto a category's slot and its delivery onto the
log preserves the invariant. -/
theorem emInv_push (em : Emit) (c : String) (e : Entity) (es0 : List Entity)
    (hprev : (em.log.filter (fun kv => kv.1 = c)).map Prod.snd = es0)
    (hinv : EmInv em) :
    EmInv { parsedSchemas := aset c (.entities (es0 ++ [e])) em.parsedSchemas,
            log := em.log ++ [(c, e)] } := by
  obtain ⟨hnd, hP⟩ := hinv
  constructor
  · exact aset_fst_nodup c _ _ hnd
  · intro cat
    by_cases hc : cat = c
    · subst hc
      rw [alookup_aset_self]
      simp [List.filter_append, hprev]
    · have hc' : c ≠ cat := fun hh => hc hh.symm
      rw [alookup_aset_ne hc']
      have hfil : (em.log ++ [(c, e)]).filter (fun kv => kv.1 = cat) =
          em.log.filter (fun kv => kv.1 = cat) := by
        simp [hc']
      rw [hfil]
      exact hP cat

/-- `emit` preserves the invariant for any category list. -/
theorem emitOne_inv : ∀ (cats : List String) (em em' : Emit) (e : Entity),
    emitOne em cats e = some em' → EmInv em → EmInv em'
  | [], em, em', e, h, hinv => by
    have h' : some em = some em' := h
    cases h'
    exact hinv
  | c :: cs, em, em', e, h, hinv => by
    have h' : (match alookup c em.parsedSchemas with
        | some .refMapMarker => none
        | some (.entities l) =>
          some (Emit.mk (aset c (EmitSlot.entities (l ++ [e])) em.parsedSchemas)
                 (em.log ++ [(c, e)]))
        | none =>
          some (Emit.mk (aset c (EmitSlot.entities [e]) em.parsedSchemas)
                 (em.log ++ [(c, e)]))).bind
        (fun em1 => emitOne em1 cs e) = some em' := h
    cases halook : alookup c em.parsedSchemas with
    | none =>
      rw [halook] at h'
      simp only [Option.bind] at h'
      have hprev := hinv.2 c
      rw [halook] at hprev
      exact emitOne_inv cs _ em' e h'
        (emInv_push em c e [] (by simp [hprev]) hinv)
    | some slot =>
      cases slot with
      | refMapMarker =>
        rw [halook] at h'
        simp at h'
      | entities l =>
        rw [halook] at h'
        simp only [Option.bind] at h'
        have hprev := hinv.2 c
        rw [halook] at hprev
        exact emitOne_inv cs _ em' e h'
          (emInv_push em c e l hprev.symm hinv)

/-- One verb-loop step preserves the invariant. -/
theorem pathMethodStep_emInv {pn : String} {pd : Json} {acc out : Reg × Emit × TGPath}
    {m : String} (h : pathMethodStep pn pd acc m = .ok out)
    (hinv : EmInv acc.2.1) : EmInv out.2.1 := by
  obtain ⟨reg, em, pp⟩ := acc
  simp only [pathMethodStep, Bind.bind, Except.bind, Pure.pure, Except.pure] at h
  obtain ⟨mv, hmv, h⟩ := except_bind_ok h
  split at h
  · injection h with h'
    subst h'
    exact hinv
  · cases mv with
    | none =>
      injection h with h'
      subst h'
      exact hinv
    | some opSchema =>
      obtain ⟨r4, hr4, h⟩ := except_bind_ok h
      obtain ⟨opItem, snapX, pp', reg2⟩ := r4
      split at h
      case _ em2 heq2 =>
        injection h with h'
        subst h'
        exact emitOne_inv _ _ _ _ heq2 hinv
      case _ heq2 =>
        exact absurd h (by simp)

/-- The verb fold preserves the invariant. -/
theorem pathMethods_fold_emInv (pn : String) (pd : Json) :
    ∀ (L : List String) (acc out : Reg × Emit × TGPath),
      L.foldlM (pathMethodStep pn pd) acc = .ok out → EmInv acc.2.1 → EmInv out.2.1
  | [], acc, out, h, hinv => by
    simp only [List.foldlM, Pure.pure, Except.pure] at h
    injection h with h'
    subst h'
    exact hinv
  | m :: L, acc, out, h, hinv => by
    simp only [List.foldlM, Bind.bind, Except.bind] at h
    obtain ⟨mid, hmid, h⟩ := except_bind_ok h
    exact pathMethods_fold_emInv pn pd L mid out h (pathMethodStep_emInv hmid hinv)

/-- The path walk of `parseSchema` preserves the invariant. -/
theorem paths_fold_emInv :
    ∀ (L : List (String × Json)) (acc out : Reg × Emit),
      L.foldlM (fun (acc : Reg × Emit) p => do
        let (reg, em) := acc
        let parsedPath := parsePathObject p.1 p.2
        let (reg', em', pp') ← parsePathMethodsS reg em p.1 p.2 parsedPath
        match emitOne em' [TT.path] (.pathE pp') with
        | some em2 => pure (reg', em2)
        | none => throw (JsErr.typeError "push is not a function")) acc = .ok out →
      EmInv acc.2 → EmInv out.2
  | [], acc, out, h, hinv => by
    simp only [List.foldlM, Pure.pure, Except.pure] at h
    injection h with h'
    subst h'
    exact hinv
  | p :: L, acc, out, h, hinv => by
    simp only [List.foldlM, Bind.bind, Except.bind] at h
    obtain ⟨mid, hmid, h⟩ := except_bind_ok h
    obtain ⟨reg, em⟩ := acc
    simp only [Bind.bind, Except.bind] at hmid
    obtain ⟨w, hw, hmid⟩ := except_bind_ok hmid
    obtain ⟨reg', em', pp'⟩ := w
    have hinv' : EmInv em' :=
      pathMethods_fold_emInv p.1 p.2 methodsList (reg, em, parsePathObject p.1 p.2)
        (reg', em', pp') hw hinv
    split at hmid
    case _ em2 heq2 =>
      injection hmid with h'
      subst h'
      exact paths_fold_emInv L _ out h (emitOne_inv _ _ _ _ heq2 hinv')
    case _ heq2 =>
      exact absurd hmid (by simp)

/-- The final per-model emissions preserve the invariant. -/
theorem models_fold_emInv :
    ∀ (L : List (String × ModelF TGVal)) (em0 out : Emit),
      (L.foldlM (fun em kv =>
        match emitOne em [kv.2.tType, TT.model] (.modelE kv.2) with
        | some em2 => pure em2
        | none => throw (JsErr.typeError "push is not a function")) em0 :
          Except JsErr Emit) = .ok out →
      EmInv em0 → EmInv out
  | [], em0, out, h, hinv => by
    simp only [List.foldlM, Pure.pure, Except.pure] at h
    injection h with h'
    subst h'
    exact hinv
  | kv :: L, em0, out, h, hinv => by
    simp only [List.foldlM, Bind.bind, Except.bind] at h
    obtain ⟨mid, hmid, h⟩ := except_bind_ok h
    split at hmid
    case _ em2 heq2 =>
      injection hmid with h'
      subst h'
      exact models_fold_emInv L _ out h (emitOne_inv _ _ _ _ heq2 hinv)
    case _ heq2 =>
      exact absurd hmid (by simp)

/-- **C5.** For every successfully parsed document, replaying the
produced snapshot through `loadParsed` delivers, for each entity
category, exactly the `(category, entity)` list that direct listener
registration received during the original run — same entities, same
order, with no re-parsing (`loadParsedDeliveries` only reads the
snapshot). The two bookkeeping keys `referenceMap` and `schemaRefMap`
are excluded, as `loadParsed` skips them by construction. -/
theorem c5_replay_roundtrip (doc : Option Json) (fn : Option String) (reg : Reg)
    (em : Emit) (cat : String) (hc1 : cat ≠ "referenceMap")
    (hc2 : cat ≠ "schemaRefMap")
    (hok : parseSchemaS doc fn = .ok (reg, em)) :
    (loadParsedDeliveries em.parsedSchemas).filter (fun kv => kv.1 = cat) =
      em.log.filter (fun kv => kv.1 = cat) := by
  have hinv : EmInv em := by
    simp only [parseSchemaS, Bind.bind, Except.bind, Pure.pure, Except.pure] at hok
    obtain ⟨ok1, hok1, hok⟩ := except_bind_ok hok
    split at hok
    · exact absurd hok (by simp)
    · obtain ⟨docJ, hdoc, hok⟩ := except_bind_ok hok
      obtain ⟨reg1, hreg1, hok⟩ := except_bind_ok hok
      obtain ⟨pathsL, hpaths, hok⟩ := except_bind_ok hok
      obtain ⟨walked, hwalk, hok⟩ := except_bind_ok hok
      obtain ⟨emF, hemF, hok⟩ := except_bind_ok hok
      injection hok with h'
      have hem : em = emF := congrArg Prod.snd h'.symm
      subst hem
      exact models_fold_emInv walked.1.refContentMap walked.2 em hemF
        (paths_fold_emInv pathsL (reg1, Emit.init) walked hwalk emInv_init)
  rw [filter_loadParsed cat hc1 hc2 em.parsedSchemas hinv.1]
  have h3 := hinv.2 cat
  cases halook : alookup cat em.parsedSchemas with
  | none =>
    rw [halook] at h3
    simpa using h3.symm
  | some slot =>
    cases slot with
    | refMapMarker =>
      rw [halook] at h3
      simpa using h3.symm
    | entities es =>
      rw [halook] at h3
      subst h3
      simpa using filter_fst_map_self cat em.log

/-- The C5 witness document: one path with one get operation. -/
def c5doc : Json := .obj [("openapi", .str "3.0.0"), ("components", .obj []),
  ("paths", .obj [("/w", .obj [("get", .obj [])])])]

set_option maxHeartbeats 2000000 in
/-- **C5, witness**: the one-operation document parses, and replaying its
snapshot yields the same METHOD and PATH deliveries as the original log. -/
theorem c5_replay_roundtrip_witness :
    (match parseSchemaS (some c5doc) (some "w.json") with
     | .ok (_, em) =>
       (loadParsedDeliveries em.parsedSchemas).filter (fun kv => kv.1 = "METHOD") =
         em.log.filter (fun kv => kv.1 = "METHOD") ∧
       (loadParsedDeliveries em.parsedSchemas).filter (fun kv => kv.1 = "PATH") =
         em.log.filter (fun kv => kv.1 = "PATH")
     | .error _ => False) := by
  cases hrun : parseSchemaS (some c5doc) (some "w.json") with
  | error e =>
    obtain ⟨v, hv⟩ : ∃ v, parseSchemaS (some c5doc) (some "w.json") = Except.ok v :=
      ⟨_, rfl⟩
    rw [hrun] at hv
    exact Except.noConfusion hv
  | ok pr =>
    obtain ⟨reg, em⟩ := pr
    exact ⟨c5_replay_roundtrip (some c5doc) (some "w.json") reg em "METHOD"
        (by decide) (by decide) hrun,
      c5_replay_roundtrip (some c5doc) (some "w.json") reg em "PATH"
        (by decide) (by decide) hrun⟩

end OasCodegen
